import Mathlib

/-!
# Clip library, Windows backend (`clip_win.cpp`)

A shallow embedding of the clipboard backend and proofs about it.

Conventions of the embedding (the Windows LLP64 ABI the file is compiled for):

* `int`, `long`, `unsigned long`, `DWORD`, `uint32_t` are 32 bits wide, `size_t` is 64 bits
  wide; unsigned arithmetic is written with an explicit `% 2^32` or `% 2^64`;
* `char` is signed; memory is little-endian;
* memory reached through a pointer is a function from byte offsets to bytes (`Mem`), so that
  very large objects can be described; a read is total (reading past the end of an object,
  undefined in C++, yields whatever the function says);
* the operating system is an explicit state (`Clipboard`) plus the outcome of the calls that
  may fail (`Os`);
* `assert` is compiled out (release build); a C++ allocation (`image`, `std::vector`)
  succeeds unless the requested size is above `max_size()`, in which case it throws
  `std::length_error`; a call ends by returning a value or by throwing (`Outcome`).
-/

namespace Clip

/-! ## Machine integers and memory -/

/-- Bytes seen from a base pointer, by offset. -/
abbrev Mem := Nat → Nat

/-- Conversion to a 32-bit unsigned integer (`unsigned long`, `DWORD`, `uint32_t`). -/
def u32 (n : Nat) : Nat := n % 2 ^ 32

/-- Conversion to `size_t` (64 bits). -/
def u64 (n : Nat) : Nat := n % 2 ^ 64

/-- Conversion of an unsigned 32-bit value to `int` / `long` (two's complement). -/
def toInt32 (n : Nat) : Int :=
  if n % 2 ^ 32 < 2 ^ 31 then ((n % 2 ^ 32 : Nat) : Int) else ((n % 2 ^ 32 : Nat) : Int) - 2 ^ 32

/-- Conversion of an `int` / `long` to `unsigned long`. -/
def ofInt32 (z : Int) : Nat := (z % 2 ^ 32).toNat

/-- Conversion of an `int` to `size_t`. -/
def ofInt64 (z : Int) : Nat := (z % 2 ^ 64).toNat

/-- The byte at an offset. -/
def byteAt (m : Mem) (a : Nat) : Nat := m a % 256

/-- A byte read through a `char*`: `char` is signed. -/
def charAt (m : Mem) (a : Nat) : Int :=
  if byteAt m a < 128 then (byteAt m a : Int) else (byteAt m a : Int) - 256

/-- Little-endian read of `k` bytes at offset `a`. -/
def rdLE (m : Mem) : Nat → Nat → Nat
  | _, 0 => 0
  | a, k + 1 => byteAt m a + 256 * rdLE m (a + 1) k

/-- Little-endian write of the low `k` bytes of `v` at offset `a`. -/
def wrLE (m : Mem) (a k v : Nat) : Mem :=
  fun i => if a ≤ i ∧ i < a + k then v / 256 ^ (i - a) % 256 else m i

/-- Read of a `WORD`. -/
def rd16 (m : Mem) (a : Nat) : Nat := rdLE m a 2

/-- Read of a `DWORD` / `uint32_t`. -/
def rd32 (m : Mem) (a : Nat) : Nat := rdLE m a 4

/-- Read of a `size_t`. -/
def rd64 (m : Mem) (a : Nat) : Nat := rdLE m a 8

/-- `memcpy(dst + d, src + s, n)` / `std::copy(src + s, src + s + n, dst + d)` between two
distinct objects. -/
def memcpy (dst : Mem) (d : Nat) (src : Mem) (s n : Nat) : Mem :=
  fun i => if d ≤ i ∧ i < d + n then byteAt src (s + (i - d)) else dst i

/-- The bytes of a list, as memory (zero past the end). -/
def memOfList (l : List Nat) : Mem := fun i => l.getD i 0

/-- The first `n` bytes of memory, as a list. -/
def memTake (m : Mem) (n : Nat) : List Nat := (List.range n).map (byteAt m)

/-! ## Windows constants (`windows.h`) -/

/-- Standard clipboard format `CF_TEXT`. -/
def CF_TEXT : Nat := 1
/-- Standard clipboard format `CF_OEMTEXT`. -/
def CF_OEMTEXT : Nat := 7
/-- Standard clipboard format `CF_DIB`. -/
def CF_DIB : Nat := 8
/-- Standard clipboard format `CF_UNICODETEXT`. -/
def CF_UNICODETEXT : Nat := 13
/-- Compression code `BI_RGB` (uncompressed). -/
def BI_RGB : Nat := 0
/-- Compression code `BI_BITFIELDS`. -/
def BI_BITFIELDS : Nat := 3
/-- Size `sizeof(BITMAPINFOHEADER)`, the offset of `bmiColors` in a `BITMAPINFO`. -/
def sizeofHeader : Nat := 40
/-- Size `sizeof(RGBQUAD)`. -/
def sizeofRGBQUAD : Nat := 4
/-- Size `sizeof(size_t)`. -/
def sizeofSizeT : Nat := 8
/-- Size `sizeof(WCHAR)`. -/
def sizeofWCHAR : Nat := 2

/-- The fields of `BITMAPINFOHEADER` the backend reads. -/
structure BITMAPINFOHEADER where
  biSize : Nat
  biWidth : Int
  biHeight : Int
  biBitCount : Nat
  biCompression : Nat
  biClrUsed : Nat
deriving DecidableEq, Repr

/-- The header `bi->bmiHeader` of the `BITMAPINFO` at the start of a memory object. -/
def bmiHeader (bi : Mem) : BITMAPINFOHEADER :=
  { biSize := rd32 bi 0
    biWidth := toInt32 (rd32 bi 4)
    biHeight := toInt32 (rd32 bi 8)
    biBitCount := rd16 bi 14
    biCompression := rd32 bi 16
    biClrUsed := rd32 bi 32 }

/-- Offset of `bi->bmiColors[c]`. -/
def bmiColors (c : Nat) : Nat := sizeofHeader + sizeofRGBQUAD * c
/-- Field `rgbBlue` of `bi->bmiColors[c]`. -/
def rgbBlue (bi : Mem) (c : Nat) : Nat := byteAt bi (bmiColors c)
/-- Field `rgbGreen` of `bi->bmiColors[c]`. -/
def rgbGreen (bi : Mem) (c : Nat) : Nat := byteAt bi (bmiColors c + 1)
/-- Field `rgbRed` of `bi->bmiColors[c]`. -/
def rgbRed (bi : Mem) (c : Nat) : Nat := byteAt bi (bmiColors c + 2)

/-! ## The operating system -/

/-- A global memory object (`HGLOBAL`): its bytes, its size, and whether `GlobalLock`
returns a pointer to it. -/
structure GlobalObj where
  mem : Mem
  size : Nat
  lockable : Bool

/-- The clipboard as the backend observes it. -/
structure Clipboard where
  /-- Answer of `IsClipboardFormatAvailable`. -/
  avail : Nat → Bool
  /-- Answer of `GetClipboardData`; `none` is a null handle. -/
  data : Nat → Option GlobalObj

/-- Outcome of the calls of one operation that the system may refuse. -/
structure Os where
  /-- Does `GlobalAlloc` return a handle. -/
  allocOk : Bool
  /-- Does `SetClipboardData` accept a non-null handle. -/
  setOk : Bool

/-- The string conversions `MultiByteToWideChar(CP_UTF8, ...)` and
`WideCharToMultiByte(CP_UTF8, ...)`: from bytes to UTF-16 code units and back. A failed
conversion yields the empty list (a return value of 0). `mbToWc` converts the bytes of a
call with a positive byte count; `mbToWcNeg` is the result of a call with a negative byte
count, for which the system reads the buffer as a null-terminated string. -/
structure Codec where
  mbToWc : List Nat → List Nat
  wcToMb : List Nat → List Nat
  mbToWcNeg : Mem → Int → List Nat

/-- Modelled from the spec: the three well-known format identifiers returned by
`text_format()`, `image_format()` and `empty_format()` (declared in `clip.h`); their
values are parameters. -/
structure Formats where
  text_format : Nat
  image_format : Nat
  empty_format : Nat

/-- Call `IsClipboardFormatAvailable(f)`. -/
def IsClipboardFormatAvailable (cb : Clipboard) (f : Nat) : Bool := cb.avail f

/-- Call `GetClipboardData(f)`. -/
def GetClipboardData (cb : Clipboard) (f : Nat) : Option GlobalObj := cb.data f

/-- Call `GlobalLock(h)`: null for a null handle. -/
def GlobalLock (h : Option GlobalObj) : Option Mem :=
  match h with
  | none => none
  | some o => if o.lockable then some o.mem else none

/-- Call `GlobalAlloc(GHND, len)`: a movable, zero-initialised object, or null. -/
def GlobalAlloc (os : Os) (len : Nat) : Option GlobalObj :=
  if os.allocOk then some { mem := fun _ => 0, size := len, lockable := true } else none

/-- Call `SetClipboardData(f, h)`: on success the clipboard holds the object under `f`; a
refused call, and a call with a null handle, leave the clipboard as it is. -/
def SetClipboardData (os : Os) (cb : Clipboard) (f : Nat) (h : Option GlobalObj) :
    Bool × Clipboard :=
  match h with
  | none => (false, cb)
  | some o =>
    if os.setOk then
      (true, { avail := fun g => if g = f then true else cb.avail g
               data := fun g => if g = f then some o else cb.data g })
    else (false, cb)

/-! ## `get_shift_from_mask` -/

/-- The loop of `get_shift_from_mask`: `n` iterations left, at `shift`. -/
def get_shift_from_mask.loop (mask : Nat) : Nat → Nat → Nat
  | 0, shift => shift
  | n + 1, shift =>
    if mask &&& u32 (1 <<< shift) ≠ 0 then shift
    else get_shift_from_mask.loop mask n (shift + 1)

/-- Function `get_shift_from_mask`: the loop runs `sizeof(unsigned long)*8 = 32` times. -/
def get_shift_from_mask (mask : Nat) : Nat := get_shift_from_mask.loop mask 32 0

/-! ## `get_image_spec` -/

/-- Modelled from the spec: the record `image_spec` (declared in `clip.h`), all of whose
fields are `unsigned long`. -/
structure image_spec where
  width : Nat := 0
  height : Nat := 0
  bits_per_pixel : Nat := 0
  bytes_per_row : Nat := 0
  red_mask : Nat := 0
  green_mask : Nat := 0
  blue_mask : Nat := 0
  alpha_mask : Nat := 0
  red_shift : Nat := 0
  green_shift : Nat := 0
  blue_shift : Nat := 0
  alpha_shift : Nat := 0
deriving DecidableEq, Repr

/-- The `switch (spec.bits_per_pixel)` of `get_image_spec`. -/
def get_image_spec.masks (bi : Mem) (spec : image_spec) : image_spec :=
  if spec.bits_per_pixel = 32 then
    if (bmiHeader bi).biCompression = BI_BITFIELDS then
      { spec with
        red_mask := rd32 bi (bmiColors 0)
        green_mask := rd32 bi (bmiColors 1)
        blue_mask := rd32 bi (bmiColors 2)
        alpha_mask := 0 }
    else if (bmiHeader bi).biCompression = BI_RGB then
      { spec with
        red_mask := 0xff0000
        green_mask := 0xff00
        blue_mask := 0xff
        alpha_mask := 0xff000000 }
    else spec
  else if spec.bits_per_pixel = 24 then
    let padding := (4 - (u32 (spec.width * 3) &&& 3)) &&& 3
    { spec with
      bytes_per_row := u32 (spec.bytes_per_row + padding)
      red_mask := 0xff0000
      green_mask := 0xff00
      blue_mask := 0xff }
  else if spec.bits_per_pixel = 16 then
    let padding := ((4 - (u32 (spec.width * 2) &&& 3)) &&& 3) / 2
    { spec with
      bytes_per_row := u32 (spec.bytes_per_row + padding)
      red_mask := rd32 bi (bmiColors 0)
      green_mask := rd32 bi (bmiColors 1)
      blue_mask := rd32 bi (bmiColors 2)
      alpha_mask := 0 }
  else spec

/-- One step of the final loop of `get_image_spec`: `if (*mask) *shift = ...`. -/
def get_image_spec.shift (mask shift : Nat) : Nat :=
  if mask ≠ 0 then get_shift_from_mask mask else shift

/-- The final loop of `get_image_spec` over the four masks. -/
def get_image_spec.shifts (spec : image_spec) : image_spec :=
  { spec with
    red_shift := get_image_spec.shift spec.red_mask spec.red_shift
    green_shift := get_image_spec.shift spec.green_mask spec.green_shift
    blue_shift := get_image_spec.shift spec.blue_mask spec.blue_shift
    alpha_shift := get_image_spec.shift spec.alpha_mask spec.alpha_shift }

/-- The part of `get_image_spec` before the `switch`: the `memset`, then `width`, `height`,
`bits_per_pixel` and `bytes_per_row`. -/
def get_image_spec.header (bi : Mem) : image_spec :=
  let w : Int := (bmiHeader bi).biWidth
  let h : Int := (bmiHeader bi).biHeight
  let s0 : image_spec := {}
  let s1 := { s0 with width := ofInt32 w, height := ofInt32 (if h ≥ 0 then h else -h) }
  let bpp := (bmiHeader bi).biBitCount
  let s2 := { s1 with bits_per_pixel := if bpp ≤ 8 then 24 else bpp }
  { s2 with bytes_per_row := u32 (ofInt32 w * ((s2.bits_per_pixel + 7) / 8)) }

/-- Method `lock::impl::get_image_spec`: the returned flag and the value of `spec` after the
call. -/
def get_image_spec (cb : Clipboard) (spec : image_spec) : Bool × image_spec :=
  if !IsClipboardFormatAvailable cb CF_DIB then (false, spec)
  else
    match GetClipboardData cb CF_DIB with
    | none => (false, spec)
    | some o =>
      let bi := o.mem
      (true, get_image_spec.shifts (get_image_spec.masks bi (get_image_spec.header bi)))

/-! ## Strings in memory -/

/-- The `WCHAR` at index `i` of a wide string. -/
def wcharAt (m : Mem) (i : Nat) : Nat := rd16 m (sizeofWCHAR * i)

/-- The loop of `wcslen`: `n` characters of the object left, at index `i`. -/
def wcslen.loop (m : Mem) : Nat → Nat → Nat
  | 0, i => i
  | n + 1, i => if wcharAt m i = 0 then i else wcslen.loop m n (i + 1)

/-- Call `wcslen(lpstr)` on a string held in an object of `size` bytes: the index of the
first zero `WCHAR` (the scan stops at the end of the object). -/
def wcslen (m : Mem) (size : Nat) : Nat := wcslen.loop m (size / sizeofWCHAR) 0

/-- The first `n` wide characters of a string. -/
def wideTake (m : Mem) (n : Nat) : List Nat := (List.range n).map (wcharAt m)

/-- The wide characters `ws` written from the start of `m`. -/
def wrWide (m : Mem) (ws : List Nat) : Mem :=
  fun i => if i < sizeofWCHAR * ws.length then
    ws.getD (i / sizeofWCHAR) 0 / 256 ^ (i % sizeofWCHAR) % 256 else m i

/-- The loop of `strlen`: `n` bytes of the object left, at index `i`. -/
def strlen.loop (m : Mem) : Nat → Nat → Nat
  | 0, i => i
  | n + 1, i => if byteAt m i = 0 then i else strlen.loop m n (i + 1)

/-- Call `strlen(lpstr)` on a string held in an object of `size` bytes. -/
def strlen (m : Mem) (size : Nat) : Nat := strlen.loop m size 0

/-- Call `MultiByteToWideChar(CP_UTF8, 0, buf, cbMultiByte, ...)`: the wide characters it
produces, for the `int` byte count `cbMultiByte`; a count of 0 is refused. -/
def MultiByteToWideChar (C : Codec) (buf : Mem) (cbMultiByte : Int) : List Nat :=
  if cbMultiByte > 0 then C.mbToWc (memTake buf cbMultiByte.toNat)
  else if cbMultiByte = 0 then []
  else C.mbToWcNeg buf cbMultiByte

/-! ## Data transfer -/

/-- Method `lock::impl::is_convertible`. -/
def is_convertible (F : Formats) (cb : Clipboard) (f : Nat) : Bool :=
  if f = F.text_format then
    (IsClipboardFormatAvailable cb CF_TEXT ||
     IsClipboardFormatAvailable cb CF_UNICODETEXT ||
     IsClipboardFormatAvailable cb CF_OEMTEXT)
  else if f = F.image_format then
    (if IsClipboardFormatAvailable cb CF_DIB then true else false)
  else if IsClipboardFormatAvailable cb f then true
  else false

/-- A store through the pointer `GlobalLock(h)`; nothing is stored through a null pointer. -/
def storeLocked (h : Option GlobalObj) (write : Mem → Mem) : Option GlobalObj :=
  match h, GlobalLock h with
  | some o, some p => some { o with mem := write p }
  | h, _ => h

/-- Method `lock::impl::set_data`: the returned flag and the clipboard after the call. The
`size_t len` is passed to `MultiByteToWideChar` as an `int`. -/
def set_data (F : Formats) (C : Codec) (os : Os) (cb : Clipboard) (f : Nat) (buf : Mem)
    (len : Nat) : Bool × Clipboard :=
  if f = F.text_format then
    if len > 0 then
      let ws := MultiByteToWideChar C buf (toInt32 len)
      let reqsize := ws.length
      if reqsize > 0 then
        let reqsize := reqsize + 1
        let hglobal := GlobalAlloc os (u64 (sizeofWCHAR * reqsize))
        let hglobal := storeLocked hglobal (fun lpstr => wrWide lpstr ws)
        (true, (SetClipboardData os cb CF_UNICODETEXT hglobal).2)
      else (true, cb)
    else (true, cb)
  else
    match GlobalAlloc os (u64 (len + sizeofSizeT)) with
    | none => (false, cb)
    | some o =>
      match GlobalLock (some o) with
      | none => (false, cb)
      | some dst =>
        let dst := wrLE dst 0 sizeofSizeT len
        let dst := memcpy dst sizeofSizeT buf 0 len
        (true, (SetClipboardData os cb f (some { o with mem := dst })).2)

/-- Method `lock::impl::get_data`: the returned flag and the contents of `buf` after the
call (`none` is a null `buf`). -/
def get_data (F : Formats) (C : Codec) (cb : Clipboard) (f : Nat) (buf : Option Mem)
    (len : Nat) : Bool × Option Mem :=
  match buf with
  | none => (false, none)
  | some b =>
    if !is_convertible F cb f then (false, some b)
    else if f = F.text_format then
      if IsClipboardFormatAvailable cb CF_UNICODETEXT then
        match GetClipboardData cb CF_UNICODETEXT with
        | none => (false, some b)
        | some o =>
          match GlobalLock (some o) with
          | none => (false, some b)
          | some lpstr =>
            let out := C.wcToMb (wideTake lpstr (wcslen lpstr o.size))
            let reqsize := u64 (out.length + 1)
            if reqsize ≤ len then (true, some (memcpy b 0 (memOfList out) 0 out.length))
            else (false, some b)
      else if IsClipboardFormatAvailable cb CF_TEXT then
        match GetClipboardData cb CF_TEXT with
        | none => (false, some b)
        | some o =>
          match GlobalLock (some o) with
          | none => (false, some b)
          | some lpstr => (true, some (memcpy b 0 lpstr 0 len))
      else (false, some b)
    else
      if IsClipboardFormatAvailable cb f then
        match GetClipboardData cb f with
        | none => (false, some b)
        | some o =>
          match GlobalLock (some o) with
          | none => (false, some b)
          | some ptr =>
            let reqsize := rd64 ptr 0
            if reqsize ≤ len then (true, some (memcpy b 0 ptr sizeofSizeT reqsize))
            else (false, some b)
      else (false, some b)

/-- Method `lock::impl::get_data_length`. -/
def get_data_length (F : Formats) (C : Codec) (cb : Clipboard) (f : Nat) : Nat :=
  if f = F.text_format then
    if IsClipboardFormatAvailable cb CF_UNICODETEXT then
      match GetClipboardData cb CF_UNICODETEXT with
      | none => 0
      | some o =>
        match GlobalLock (some o) with
        | none => 0
        | some lpstr => u64 ((C.wcToMb (wideTake lpstr (wcslen lpstr o.size))).length + 1)
    else if IsClipboardFormatAvailable cb CF_TEXT then
      match GetClipboardData cb CF_TEXT with
      | none => 0
      | some o =>
        match GlobalLock (some o) with
        | none => 0
        | some lpstr => u64 (strlen lpstr o.size + 1)
    else 0
  else if f ≠ F.empty_format then
    if IsClipboardFormatAvailable cb f then
      match GetClipboardData cb f with
      | none => 0
      | some o =>
        match GlobalLock (some o) with
        | none => 0
        | some ptr => rd64 ptr 0
    else 0
  else 0

/-! ## `get_image` -/

/-- Modelled from the spec: the error kinds of `clip.h` passed to the error handler. -/
inductive ErrorCode where
  | CannotLock
  | PixelFormatNotSupported
deriving DecidableEq, Repr

/-- The C++ exceptions the backend can raise. -/
inductive CppException where
  | length_error
deriving DecidableEq, Repr

/-- How a call ends: it returns a value, or it throws. -/
inductive Outcome (α : Type) where
  | returns (a : α)
  | throws (e : CppException)
deriving DecidableEq, Repr

/-- Modelled from the spec: class `image` (declared in `clip.h`): a spec and the buffer
`data()` of `spec.height * spec.bytes_per_row` bytes, seen as memory from its first byte
(offsets past the buffer are the memory that follows it). -/
structure image where
  spec : image_spec
  data : Mem

/-- Number of iterations of `for (long y=spec.height-1; y>=0; --y)`. -/
def get_image.rowCount (height : Nat) : Nat := (toInt32 (u32 (height + (2 ^ 32 - 1))) + 1).toNat

/-- The row loop of the cases 32, 24 and 16, with `y + 1` rows left and `src` at offset `s`:
`dst = img.data()+y*spec.bytes_per_row`, one `std::copy` of `bytes_per_row` bytes. -/
def get_image.rows (bpr : Nat) (src : Mem) : Nat → Nat → Mem → Mem
  | 0, _, img => img
  | y + 1, s, img => get_image.rows bpr src y (s + bpr) (memcpy img (u32 (y * bpr)) src s bpr)

/-- Number `colors` of palette entries in case 8 (an `int`). -/
def get_image.colors (bi : Mem) : Int :=
  if (bmiHeader bi).biClrUsed > 0 then toInt32 (bmiHeader bi).biClrUsed else 256

/-- The entry `palette[c]` built by case 8; an index outside the vector reads 0. -/
def get_image.palette (bi : Mem) (spec : image_spec) (c : Int) : Nat :=
  if 0 ≤ c ∧ c < get_image.colors bi then
    u32 ((rgbRed bi c.toNat <<< spec.red_shift) |||
         (rgbGreen bi c.toNat <<< spec.green_shift) |||
         (rgbBlue bi c.toNat <<< spec.blue_shift))
  else 0

/-- The clamping of `idx` in case 8. -/
def get_image.clamp (colors : Int) (idx : Int) : Int :=
  if idx < 0 then 0
  else if idx ≥ colors then colors - 1
  else idx

/-- The palette index used for the source pixel at offset `s`: `int idx = *src`, clamped. -/
def get_image.index (colors : Int) (src : Mem) (s : Nat) : Int :=
  get_image.clamp colors (charAt src s)

/-- The pixel loop of case 8, with `n` pixels left, `src` at offset `s` and `dst` at offset
`d`: a 32-bit store of the palette entry, then `++src, dst+=3`. -/
def get_image.pixels (bi : Mem) (spec : image_spec) : Nat → Nat → Nat → Mem → Mem
  | 0, _, _, img => img
  | n + 1, s, d, img =>
    get_image.pixels bi spec n (s + 1) (d + 3)
      (wrLE img d 4 (get_image.palette bi spec (get_image.index (get_image.colors bi) bi s)))

/-- The row loop of case 8, with `y + 1` rows left and `src` at offset `s`; after each row
`src+=padding`. -/
def get_image.indexed (bi : Mem) (spec : image_spec) (padding : Nat) : Nat → Nat → Mem → Mem
  | 0, _, img => img
  | y + 1, s, img =>
    get_image.indexed bi spec padding y (s + spec.width + padding)
      (get_image.pixels bi spec spec.width s (u32 (y * spec.bytes_per_row)) img)

/-- The `switch (bi->bmiHeader.biBitCount)` of `get_image`, on the fresh buffer `img`: the
buffer after it, or the exception it throws. In case 8 the construction
`std::vector<uint32_t> palette(colors)` throws `std::length_error` when the `int`
`colors` is negative (converted to `size_t` it is above `max_size()`). -/
def get_image.decode (bi : Mem) (spec : image_spec) (img : Mem) : Outcome Mem :=
  let hdr := bmiHeader bi
  let n := get_image.rowCount spec.height
  if hdr.biBitCount = 32 then
    if hdr.biCompression = BI_BITFIELDS then
      Outcome.returns
        (get_image.rows spec.bytes_per_row bi n (hdr.biSize + sizeofRGBQUAD * 3) img)
    else if hdr.biCompression = BI_RGB then
      Outcome.returns (get_image.rows spec.bytes_per_row bi n hdr.biSize img)
    else Outcome.returns img
  else if hdr.biBitCount = 24 then
    Outcome.returns (get_image.rows spec.bytes_per_row bi n hdr.biSize img)
  else if hdr.biBitCount = 16 then
    Outcome.returns
      (get_image.rows spec.bytes_per_row bi n (hdr.biSize + sizeofRGBQUAD * 3) img)
  else if hdr.biBitCount = 8 then
    if get_image.colors bi < 0 then Outcome.throws CppException.length_error
    else
      let src := hdr.biSize + ofInt64 (sizeofRGBQUAD * get_image.colors bi)
      let padding := (4 - (spec.width &&& 3)) &&& 3
      Outcome.returns (get_image.indexed bi spec padding n src img)
  else Outcome.returns img

/-- Method `lock::impl::get_image`: how the call ends (the returned flag, or the exception
that leaves it), the value of `output_img` after the call, and the errors passed to the
error handler. `handler` tells whether `get_error_handler()` is non-null; `fresh` is the
content of the memory that `image img(spec)` allocates. An exception thrown by the
`switch` leaves `output_img` as it was: the `std::swap` is not reached. -/
def get_image (handler : Bool) (fresh : Mem) (cb : Clipboard) (output_img : image) :
    Outcome Bool × image × List ErrorCode :=
  let r := get_image_spec cb {}
  if !r.1 then (Outcome.returns false, output_img, [])
  else
    let spec := r.2
    match GetClipboardData cb CF_DIB with
    | none => (Outcome.returns false, output_img, [])
    | some o =>
      let bi := o.mem
      if (bmiHeader bi).biCompression ≠ BI_RGB ∧ (bmiHeader bi).biCompression ≠ BI_BITFIELDS then
        (Outcome.returns false, output_img,
          if handler then [ErrorCode.PixelFormatNotSupported] else [])
      else
        match get_image.decode bi spec fresh with
        | Outcome.throws e => (Outcome.throws e, output_img, [])
        | Outcome.returns data => (Outcome.returns true, { spec := spec, data := data }, [])

/-! ## Specification vocabulary -/

/-- Index of the lowest set bit: `k` is the lowest set bit of `m`, or 0 when `m` is 0. -/
def IsShiftOf (m k : Nat) : Prop :=
  if m = 0 then k = 0 else m.testBit k = true ∧ ∀ j < k, m.testBit j = false

instance (m k : Nat) : Decidable (IsShiftOf m k) := by
  unfold IsShiftOf; infer_instance

/-! ## Building test objects -/

/-- A `BITMAPINFO` object: the header fields written in place over `body` (the bytes at
all other offsets, palette and pixels included). -/
def dibMem (h : BITMAPINFOHEADER) (body : Mem) : Mem :=
  wrLE (wrLE (wrLE (wrLE (wrLE (wrLE body 0 4 h.biSize) 4 4 (ofInt32 h.biWidth)) 8 4
    (ofInt32 h.biHeight)) 14 2 h.biBitCount) 16 4 h.biCompression) 32 4 h.biClrUsed

/-- A clipboard holding exactly one object, under `f`. -/
def clipboardWith (f : Nat) (o : GlobalObj) : Clipboard :=
  { avail := fun g => g = f
    data := fun g => if g = f then some o else none }

/-- The empty clipboard. -/
def emptyClipboard : Clipboard :=
  { avail := fun _ => false
    data := fun _ => none }

/-! ## Sample inputs -/

/-- A 32-bit 2x2 bitmap with explicit masks `0x80000000`, `0x00f0` and `0x0001`. -/
def dibMasks : Clipboard :=
  clipboardWith CF_DIB
    { mem := dibMem ⟨40, 2, 2, 32, BI_BITFIELDS, 0⟩
        (memOfList (List.replicate 40 0 ++ [0, 0, 0, 0x80, 0xf0, 0, 0, 0, 1, 0, 0, 0]))
      size := 68
      lockable := true }

/-- An 8-bit indexed 4x4 bitmap with a 2-entry palette. -/
def objIndexed4x4 : GlobalObj :=
  { mem := dibMem ⟨40, 4, 4, 8, BI_RGB, 2⟩
      (memOfList (List.replicate 40 0 ++ [10, 20, 30, 0, 11, 21, 31, 0] ++
        [0, 1, 0, 1, 1, 1, 1, 1, 0, 0, 0, 0, 1, 0, 0, 1]))
    size := 64
    lockable := true }

/-- An 8-bit indexed bitmap of width 1431655765 and height 1, all of whose pixels have
index 0. -/
def objWide : GlobalObj :=
  { mem := dibMem ⟨40, 1431655765, 1, 8, BI_RGB, 2⟩ (fun _ => 0)
    size := 40 + 8 + 1431655768
    lockable := true }

/-- A 16-bit bitmap of width 1 and height 2, with masks for 5-6-5 pixels. -/
def obj16 : GlobalObj :=
  { mem := dibMem ⟨40, 1, 2, 16, BI_BITFIELDS, 0⟩
      (memOfList (List.replicate 40 0 ++ [0, 0xf8, 0, 0, 0xe0, 0x07, 0, 0, 0x1f, 0, 0, 0] ++
        [1, 2, 0, 0, 3, 4, 0, 0]))
    size := 60
    lockable := true }

/-- A choice of the three well-known format identifiers. -/
def sampleFormats : Formats := { text_format := 1, image_format := 2, empty_format := 0 }

/-- The conversions restricted to ASCII, where UTF-8 bytes and UTF-16 code units coincide;
any other input is refused. -/
def asciiCodec : Codec :=
  { mbToWc := fun l => if l.all (fun b => decide (b < 128)) then l else []
    wcToMb := fun l => if l.all (fun w => decide (w < 128)) then l else []
    mbToWcNeg := fun _ _ => [] }

/-- A system in which every call succeeds. -/
def osOk : Os := { allocOk := true, setOk := true }

/-- A system which refuses `SetClipboardData`. -/
def osNoSet : Os := { allocOk := true, setOk := false }

/-- An image with an empty spec, as a previous value of `output_img`. -/
def emptyImage : image := { spec := {}, data := fun _ => 0 }

/-- An 8-bit bitmap 4x2 stored with run-length compression (`BI_RLE8 = 1`). -/
def objRle : GlobalObj :=
  { mem := dibMem ⟨40, 4, 2, 8, 1, 2⟩ (fun _ => 0)
    size := 64
    lockable := true }

/-- An uncompressed 24-bit bitmap 2x2: rows of 6 bytes padded to 8; the byte of the pixel
data at offset `k` is `k + 1`. -/
def obj24 : GlobalObj :=
  { mem := dibMem ⟨40, 2, 2, 24, BI_RGB, 0⟩ (fun i => if 40 ≤ i then i - 39 else 0)
    size := 56
    lockable := true }

/-- An uncompressed 32-bit bitmap of width `2^29` and height 3 (rows of `2^31` bytes), all
of whose pixel bytes are 1. -/
def objTall : GlobalObj :=
  { mem := dibMem ⟨40, 2 ^ 29, 3, 32, BI_RGB, 0⟩ (fun _ => 1)
    size := 40 + 3 * 2 ^ 31
    lockable := true }

/-- An uncompressed 8-bit indexed bitmap 4x2 with a 2-entry palette: entry 0 is blue 10,
green 20, red 30 and entry 1 is blue 11, green 21, red 31; the first source row holds the
indices 0, 1, 0, 1 and the second 1, 1, 1, 1. -/
def objIndexed4x2 : GlobalObj :=
  { mem := dibMem ⟨40, 4, 2, 8, BI_RGB, 2⟩
      (memOfList (List.replicate 40 0 ++ [10, 20, 30, 0, 11, 21, 31, 0] ++
        [0, 1, 0, 1, 1, 1, 1, 1]))
    size := 56
    lockable := true }

/-- An uncompressed 8-bit indexed bitmap 1x1 with the full palette of 256 entries
(`biClrUsed = 0`): entry 0 is blue 1, green 2, red 3, entry 200 is blue 7, green 8, red 9,
and the only pixel has index 200. -/
def objIndex200 : GlobalObj :=
  { mem := dibMem ⟨40, 1, 1, 8, BI_RGB, 0⟩
      (fun i => if i = 40 then 1 else if i = 41 then 2 else if i = 42 then 3
        else if i = 840 then 7 else if i = 841 then 8 else if i = 842 then 9
        else if i = 1064 then 200 else 0)
    size := 1068
    lockable := true }

/-! ## The lock -/

/-- Class `lock::impl`: its only data member. -/
structure impl where
  m_locked : Bool
deriving DecidableEq, Repr

/-- What a construction of `lock::impl` did: the object, the number of calls of
`OpenClipboard` and of `Sleep(20)`, and the errors passed to the error handler. -/
structure Construction where
  self : impl
  attempts : Nat
  sleeps : Nat
  errors : List ErrorCode
deriving DecidableEq, Repr

/-- The loop of the constructor, with `n` iterations left after `a` calls of
`OpenClipboard` and `s` calls of `Sleep`; `answers k` is what the call number `k` of
`OpenClipboard` returns. The result is `m_locked` and the two counts. -/
def impl.ctor.loop (answers : Nat → Bool) : Nat → Nat → Nat → Bool × Nat × Nat
  | 0, a, s => (false, a, s)
  | n + 1, a, s =>
    if answers a then (true, a + 1, s)
    else impl.ctor.loop answers n (a + 1) (s + 1)

/-- Constructor `lock::impl::impl`; `handler` tells whether `get_error_handler()` is
non-null. -/
def impl.ctor (handler : Bool) (answers : Nat → Bool) : Construction :=
  let r := impl.ctor.loop answers 5 0 0
  { self := { m_locked := r.1 }
    attempts := r.2.1
    sleeps := r.2.2
    errors := if !r.1 then (if handler then [ErrorCode.CannotLock] else []) else [] }

/-- Method `lock::impl::locked`. -/
def impl.locked (self : impl) : Bool := self.m_locked

/-- Call `EmptyClipboard()`: when accepted, the clipboard holds nothing. -/
def EmptyClipboard (ok : Bool) (cb : Clipboard) : Bool × Clipboard :=
  if ok then (true, { avail := fun _ => false, data := fun _ => none }) else (false, cb)

/-- Method `lock::impl::clear`: the returned flag and the clipboard after the call. -/
def clear (ok : Bool) (cb : Clipboard) : Bool × Clipboard :=
  ((if (EmptyClipboard ok cb).1 then true else false), (EmptyClipboard ok cb).2)

/-- Method `lock::impl::set_image`. -/
def set_image (_img : image) : Bool := false

/-- What a lock's lifetime acts on: the clipboard and the number of calls of
`CloseClipboard` made so far. -/
structure System where
  cb : Clipboard
  closes : Nat

/-- A call of a method of a live `lock::impl`, with its arguments and the outcome of the
system calls it makes. -/
inductive Call where
  | locked
  | clear (ok : Bool)
  | is_convertible (f : Nat)
  | set_data (os : Os) (f : Nat) (buf : Mem) (len : Nat)
  | get_data (f : Nat) (buf : Option Mem) (len : Nat)
  | get_data_length (f : Nat)
  | set_image (img : image)
  | get_image (handler : Bool) (fresh : Mem) (output_img : image)
  | get_image_spec (spec : image_spec)

/-- The effect of a method call on the object and on the system: `clear` and `set_data`
act on the clipboard, the other methods only read it; no method assigns `m_locked` or
calls `CloseClipboard`. -/
def impl.call (F : Formats) (C : Codec) (self : impl) (sys : System) : Call → impl × System
  | Call.clear ok => (self, { sys with cb := (clear ok sys.cb).2 })
  | Call.set_data os f buf len => (self, { sys with cb := (set_data F C os sys.cb f buf len).2 })
  | Call.locked => (self, sys)
  | Call.is_convertible _ => (self, sys)
  | Call.get_data _ _ _ => (self, sys)
  | Call.get_data_length _ => (self, sys)
  | Call.set_image _ => (self, sys)
  | Call.get_image _ _ _ => (self, sys)
  | Call.get_image_spec _ => (self, sys)

/-- A sequence of method calls, in order. -/
def impl.calls (F : Formats) (C : Codec) (self : impl) (sys : System) :
    List Call → impl × System
  | [] => (self, sys)
  | c :: cs => impl.calls F C (impl.call F C self sys c).1 (impl.call F C self sys c).2 cs

/-- Destructor `lock::impl::~impl`: `if (m_locked) CloseClipboard();`. -/
def impl.dtor (self : impl) (sys : System) : System :=
  if self.m_locked then { sys with closes := sys.closes + 1 } else sys

/-- The lifetime of a lock: construction, a sequence of method calls, destruction. -/
def lifetime (F : Formats) (C : Codec) (handler : Bool) (answers : Nat → Bool)
    (cs : List Call) (sys : System) : System :=
  impl.dtor (impl.calls F C (impl.ctor handler answers).self sys cs).1
    (impl.calls F C (impl.ctor handler answers).self sys cs).2

/-- A system which refuses `GlobalAlloc`. -/
def osNoAlloc : Os := { allocOk := false, setOk := true }

/-- The wide string `hi` with its terminator, as an object of 6 bytes. -/
def objWideHi : GlobalObj :=
  { mem := memOfList [104, 0, 105, 0, 0, 0]
    size := 6
    lockable := true }

/-- The ANSI string `hi` with its terminator, as an object of 3 bytes. -/
def objAnsiHi : GlobalObj :=
  { mem := memOfList [104, 105, 0]
    size := 3
    lockable := true }

/-- An uncompressed 4-bit indexed bitmap 2x1 with a 2-entry palette (entry 0 is blue 10,
green 20, red 30, entry 1 is blue 11, green 21, red 31) whose two pixels have the indices
given by the nibbles of `px`. -/
def obj4bit (px : Nat) : GlobalObj :=
  { mem := dibMem ⟨40, 2, 1, 4, BI_RGB, 2⟩
      (memOfList (List.replicate 40 0 ++ [10, 20, 30, 0, 11, 21, 31, 0] ++ [px, 0, 0, 0]))
    size := 52
    lockable := true }

/-- An uncompressed (`BI_RGB`, 5-5-5) 16-bit bitmap 2x1: the pixel data 1, 2, 3, 4 follows
the header at offset 40, and the bytes at offsets 52 to 55 are 9. -/
def obj16rgb : GlobalObj :=
  { mem := dibMem ⟨40, 2, 1, 16, BI_RGB, 0⟩
      (memOfList (List.replicate 40 0 ++ [1, 2, 3, 4] ++ List.replicate 8 0 ++ [9, 9, 9, 9]))
    size := 44
    lockable := true }

/-- A custom blob as `set_data` stores it: the length 3 as a `size_t`, then the bytes
7, 8, 9. -/
def objBlob3 : GlobalObj :=
  { mem := memOfList [3, 0, 0, 0, 0, 0, 0, 0, 7, 8, 9]
    size := 11
    lockable := true }

/-- An uncompressed (`BI_RGB`) 32-bit bitmap 1x1 whose pixel 1, 2, 3, 4 follows the header
at offset 40, the bytes at offsets 52 to 55 being 9. -/
def obj32rgb : GlobalObj :=
  { mem := dibMem ⟨40, 1, 1, 32, BI_RGB, 0⟩
      (memOfList (List.replicate 40 0 ++ [1, 2, 3, 4] ++ List.replicate 8 0 ++ [9, 9, 9, 9]))
    size := 44
    lockable := true }

/-- An uncompressed 8-bit bitmap 1x1 whose header declares `biClrUsed = 0x80000000`. -/
def objPalette31 : GlobalObj :=
  { mem := dibMem ⟨40, 1, 1, 8, BI_RGB, 0x80000000⟩ (fun _ => 0)
    size := 1068
    lockable := true }

theorem u32_one_shiftLeft {s : Nat} (h : s < 32) : u32 (1 <<< s) = 2 ^ s := by
  unfold u32
  rw [Nat.one_shiftLeft]
  exact Nat.mod_eq_of_lt (Nat.pow_lt_pow_right (by decide) h)

theorem and_two_pow_ne_zero (m k : Nat) : m &&& 2 ^ k ≠ 0 ↔ m.testBit k = true := by
  constructor
  · intro h
    obtain ⟨i, hi⟩ := Nat.ne_zero_implies_bit_true h
    rw [Nat.testBit_and, Nat.testBit_two_pow] at hi
    simp only [Bool.and_eq_true, decide_eq_true_eq] at hi
    rw [hi.2]; exact hi.1
  · intro h h0
    have := Nat.testBit_and m (2 ^ k) k
    rw [h0, Nat.zero_testBit, h, Nat.testBit_two_pow_self] at this
    simp at this

theorem get_shift_from_mask.loop_spec (mask : Nat) :
    ∀ n s, s + n ≤ 32 → (∃ k, s ≤ k ∧ k < s + n ∧ mask.testBit k = true) →
      (∀ j < s, mask.testBit j = false) →
      mask.testBit (get_shift_from_mask.loop mask n s) = true ∧
        ∀ j < get_shift_from_mask.loop mask n s, mask.testBit j = false := by
  intro n
  induction n with
  | zero =>
    intro s _ hex _
    obtain ⟨k, h1, h2, _⟩ := hex
    omega
  | succ n ih =>
    intro s hs hex hlow
    unfold get_shift_from_mask.loop
    rw [u32_one_shiftLeft (by omega)]
    by_cases hb : mask.testBit s = true
    · rw [if_pos ((and_two_pow_ne_zero mask s).2 hb)]
      exact ⟨hb, hlow⟩
    · rw [if_neg (fun h => hb ((and_two_pow_ne_zero mask s).1 h))]
      have hb' : mask.testBit s = false := by simpa using hb
      apply ih (s + 1) (by omega)
      · obtain ⟨k, h1, h2, h3⟩ := hex
        refine ⟨k, ?_, by omega, h3⟩
        rcases Nat.eq_or_lt_of_le h1 with h | h
        · subst h; rw [h3] at hb'; cases hb'
        · exact h
      · intro j hj
        rcases Nat.eq_or_lt_of_le (Nat.le_of_lt_succ hj) with h | h
        · subst h; exact hb'
        · exact hlow j h

theorem get_shift_from_mask_spec (m : Nat) (h0 : m ≠ 0) (h32 : m < 2 ^ 32) :
    m.testBit (get_shift_from_mask m) = true ∧
      ∀ j < get_shift_from_mask m, m.testBit j = false := by
  obtain ⟨k, hk⟩ := Nat.ne_zero_implies_bit_true h0
  have hk32 : k < 32 := by
    by_contra hge
    have : m < 2 ^ k := lt_of_lt_of_le h32 (Nat.pow_le_pow_right (by decide) (by omega))
    rw [Nat.testBit_lt_two_pow this] at hk
    cases hk
  exact get_shift_from_mask.loop_spec m 32 0 (by omega) ⟨k, by omega, by omega, hk⟩
    (fun j hj => by omega)

theorem byteAt_lt (m : Mem) (a : Nat) : byteAt m a < 256 := Nat.mod_lt _ (by decide)

theorem rdLE_lt (m : Mem) : ∀ k a, rdLE m a k < 256 ^ k := by
  intro k
  induction k with
  | zero => intro a; simp [rdLE]
  | succ k ih =>
    intro a
    unfold rdLE
    have h1 := byteAt_lt m a
    have h2 := ih (a + 1)
    rw [Nat.pow_succ]
    omega

theorem rd32_lt (m : Mem) (a : Nat) : rd32 m a < 2 ^ 32 := by
  have := rdLE_lt m 4 a
  unfold rd32
  omega

theorem and_three (x : Nat) : x &&& 3 = x % 4 := Nat.and_pow_two_sub_one_eq_mod x 2

theorem toInt32_range (n : Nat) : -(2 ^ 31 : Int) ≤ toInt32 n ∧ toInt32 n < 2 ^ 31 := by
  unfold toInt32
  have h : n % 2 ^ 32 < 2 ^ 32 := Nat.mod_lt _ (by decide)
  split <;> omega

theorem ofInt32_of_nonneg {z : Int} (h0 : 0 ≤ z) (h1 : z < 2 ^ 32) : ofInt32 z = z.toNat := by
  unfold ofInt32
  rw [Int.emod_eq_of_lt h0 h1]

theorem get_image_spec.shift_isShiftOf (m : Nat) (hm : m < 2 ^ 32) :
    IsShiftOf m (get_image_spec.shift m 0) := by
  unfold IsShiftOf get_image_spec.shift
  by_cases h : m = 0
  · simp [h]
  · simp only [h, if_false, ne_eq, not_false_eq_true, if_true]
    exact get_shift_from_mask_spec m h hm

theorem get_image_spec.masks_fields (bi : Mem) (s : image_spec)
    (hr : s.red_mask < 2 ^ 32) (hg : s.green_mask < 2 ^ 32) (hb : s.blue_mask < 2 ^ 32)
    (ha : s.alpha_mask < 2 ^ 32) :
    (get_image_spec.masks bi s).red_mask < 2 ^ 32 ∧
    (get_image_spec.masks bi s).green_mask < 2 ^ 32 ∧
    (get_image_spec.masks bi s).blue_mask < 2 ^ 32 ∧
    (get_image_spec.masks bi s).alpha_mask < 2 ^ 32 ∧
    (get_image_spec.masks bi s).red_shift = s.red_shift ∧
    (get_image_spec.masks bi s).green_shift = s.green_shift ∧
    (get_image_spec.masks bi s).blue_shift = s.blue_shift ∧
    (get_image_spec.masks bi s).alpha_shift = s.alpha_shift ∧
    (get_image_spec.masks bi s).width = s.width ∧
    (get_image_spec.masks bi s).height = s.height ∧
    (get_image_spec.masks bi s).bits_per_pixel = s.bits_per_pixel := by
  have h0 := rd32_lt bi (bmiColors 0)
  have h1 := rd32_lt bi (bmiColors 1)
  have h2 := rd32_lt bi (bmiColors 2)
  unfold get_image_spec.masks
  split_ifs <;> simp <;> omega

/-- What `get_image_spec` returns when a bitmap is present. -/
theorem get_image_spec_present (cb : Clipboard) (spec0 : image_spec) (o : GlobalObj)
    (hav : cb.avail CF_DIB = true) (hd : cb.data CF_DIB = some o) :
    get_image_spec cb spec0 =
      (true, get_image_spec.shifts (get_image_spec.masks o.mem (get_image_spec.header o.mem))) := by
  unfold get_image_spec IsClipboardFormatAvailable GetClipboardData
  simp [hav, hd]

theorem get_image_spec_true_iff (cb : Clipboard) (spec0 : image_spec) :
    (get_image_spec cb spec0).1 = true ↔
      cb.avail CF_DIB = true ∧ ∃ o, cb.data CF_DIB = some o := by
  unfold get_image_spec IsClipboardFormatAvailable GetClipboardData
  cases hav : cb.avail CF_DIB <;> cases hd : cb.data CF_DIB <;> simp

/-- C8. Whenever `get_image_spec` returns true, each of the four reported shifts (red, green,
blue, alpha) is the index of the lowest set bit of its mask, and is 0 when the mask is 0;
and `get_shift_from_mask m` is the least index of a set bit of `m` for every non-zero
32-bit mask `m`. -/
theorem get_image_spec_shifts (cb : Clipboard) (spec0 : image_spec)
    (h : (get_image_spec cb spec0).1 = true) :
    (IsShiftOf (get_image_spec cb spec0).2.red_mask (get_image_spec cb spec0).2.red_shift ∧
     IsShiftOf (get_image_spec cb spec0).2.green_mask (get_image_spec cb spec0).2.green_shift ∧
     IsShiftOf (get_image_spec cb spec0).2.blue_mask (get_image_spec cb spec0).2.blue_shift ∧
     IsShiftOf (get_image_spec cb spec0).2.alpha_mask (get_image_spec cb spec0).2.alpha_shift) ∧
    ∀ m : Nat, m ≠ 0 → m < 2 ^ 32 →
      m.testBit (get_shift_from_mask m) = true ∧
        ∀ j < get_shift_from_mask m, m.testBit j = false := by
  refine ⟨?_, fun m h0 h32 => get_shift_from_mask_spec m h0 h32⟩
  obtain ⟨hav, o, hd⟩ := (get_image_spec_true_iff cb spec0).1 h
  rw [get_image_spec_present cb spec0 o hav hd]
  have z : (0 : Nat) < 2 ^ 32 := by decide
  obtain ⟨hr, hg, hb, ha, sr, sg, sb, sa, -⟩ :=
    get_image_spec.masks_fields o.mem (get_image_spec.header o.mem) z z z z
  simp only [get_image_spec.shifts]
  rw [sr, sg, sb, sa]
  exact ⟨get_image_spec.shift_isShiftOf _ hr, get_image_spec.shift_isShiftOf _ hg,
    get_image_spec.shift_isShiftOf _ hb, get_image_spec.shift_isShiftOf _ ha⟩

theorem get_image_spec_shifts_witness :
    (get_image_spec dibMasks {}).1 = true ∧
    (get_image_spec dibMasks {}).2.red_mask = 0x80000000 ∧
    (get_image_spec dibMasks {}).2.red_shift = 31 ∧
    IsShiftOf (get_image_spec dibMasks {}).2.red_mask (get_image_spec dibMasks {}).2.red_shift :=
  ⟨by decide, by decide, by decide, (get_image_spec_shifts dibMasks {} (by decide)).1.1⟩

theorem biHeight_range (bi : Mem) :
    -(2 ^ 31 : Int) ≤ (bmiHeader bi).biHeight ∧ (bmiHeader bi).biHeight < 2 ^ 31 :=
  toInt32_range _

theorem ofInt32_natCast {w : Nat} (h : w < 2 ^ 32) : ofInt32 (w : Int) = w := by
  rw [ofInt32_of_nonneg (by omega) (by omega)]
  simp

theorem header_height (bi : Mem) :
    (get_image_spec.header bi).height = (bmiHeader bi).biHeight.natAbs := by
  obtain ⟨h1, h2⟩ := biHeight_range bi
  simp only [get_image_spec.header]
  split
  · rw [ofInt32_of_nonneg (by omega) (by omega)]; omega
  · rw [ofInt32_of_nonneg (by omega) (by omega)]; omega

theorem header_height_le (bi : Mem) : (get_image_spec.header bi).height ≤ 2 ^ 31 := by
  obtain ⟨h1, h2⟩ := biHeight_range bi
  rw [header_height]
  omega

/-- C6 (amended). For every present source bitmap whose header bit depth is at most 8, with
width `w ≥ 0` such that the padded row size fits in 32 bits (`3*w + 3 < 2^32`) and height
`h`, `get_image_spec` returns true and reports `bits_per_pixel = 24`, `width = w`,
`height = |h|`, `bytes_per_row` = the smallest multiple of 4 that is at least `3*w`, and the
masks red `0xff0000`, green `0xff00`, blue `0xff`. -/
theorem get_image_spec_indexed (cb : Clipboard) (spec0 : image_spec) (o : GlobalObj) (w : Nat)
    (hav : cb.avail CF_DIB = true) (hd : cb.data CF_DIB = some o)
    (hbits : (bmiHeader o.mem).biBitCount ≤ 8)
    (hw : (bmiHeader o.mem).biWidth = (w : Int))
    (hfit : 3 * w + 3 < 2 ^ 32) :
    (get_image_spec cb spec0).1 = true ∧
    (get_image_spec cb spec0).2.bits_per_pixel = 24 ∧
    (get_image_spec cb spec0).2.width = w ∧
    (get_image_spec cb spec0).2.height = (bmiHeader o.mem).biHeight.natAbs ∧
    (4 ∣ (get_image_spec cb spec0).2.bytes_per_row ∧
      3 * w ≤ (get_image_spec cb spec0).2.bytes_per_row ∧
      (get_image_spec cb spec0).2.bytes_per_row < 3 * w + 4) ∧
    (get_image_spec cb spec0).2.red_mask = 0xff0000 ∧
    (get_image_spec cb spec0).2.green_mask = 0xff00 ∧
    (get_image_spec cb spec0).2.blue_mask = 0xff := by
  rw [get_image_spec_present cb spec0 o hav hd]
  have hh := header_height o.mem
  have hwid : (get_image_spec.header o.mem).width = w := by
    simp only [get_image_spec.header, hw]
    exact ofInt32_natCast (by omega)
  have hbpp : (get_image_spec.header o.mem).bits_per_pixel = 24 := by
    simp only [get_image_spec.header, hbits, if_true]
  have hbpr : (get_image_spec.header o.mem).bytes_per_row = 3 * w := by
    simp only [get_image_spec.header, hw, hbits, if_true]
    rw [ofInt32_natCast (by omega)]
    unfold u32
    omega
  simp only [get_image_spec.shifts, get_image_spec.masks, hbpp, hwid, hbpr, hh]
  simp only [show ¬ ((24 : Nat) = 32) by decide, if_false, if_true, and_three, u32]
  refine ⟨trivial, trivial, trivial, trivial, ⟨?_, ?_, ?_⟩, trivial, trivial, trivial⟩ <;> omega

theorem get_image_spec_indexed_witness :
    (get_image_spec (clipboardWith CF_DIB objIndexed4x4) {}).1 = true ∧
    (get_image_spec (clipboardWith CF_DIB objIndexed4x4) {}).2.bits_per_pixel = 24 ∧
    (get_image_spec (clipboardWith CF_DIB objIndexed4x4) {}).2.width = 4 ∧
    (get_image_spec (clipboardWith CF_DIB objIndexed4x4) {}).2.height = 4 ∧
    (get_image_spec (clipboardWith CF_DIB objIndexed4x4) {}).2.bytes_per_row = 12 :=
  have h := get_image_spec_indexed (clipboardWith CF_DIB objIndexed4x4) {} objIndexed4x4 4
    (by decide) (by rfl) (by decide) (by decide) (by decide)
  ⟨h.1, h.2.1, h.2.2.1, h.2.2.2.1, by decide⟩

/-- C6 (counterexample). An 8-bit bitmap of width 1431655765 is present and
`get_image_spec` reports `bytes_per_row = 0`, which is below `3 * width`: the product
`3 * 1431655765 = 2^32 - 1` plus the padding 1 wraps around in `unsigned long`. -/
theorem get_image_spec_indexed_overflow :
    (clipboardWith CF_DIB objWide).avail CF_DIB = true ∧
    (bmiHeader objWide.mem).biBitCount ≤ 8 ∧
    (bmiHeader objWide.mem).biWidth = 1431655765 ∧
    (get_image_spec (clipboardWith CF_DIB objWide) {}).1 = true ∧
    (get_image_spec (clipboardWith CF_DIB objWide) {}).2.bytes_per_row = 0 ∧
    ¬ (3 * 1431655765 ≤ (get_image_spec (clipboardWith CF_DIB objWide) {}).2.bytes_per_row) := by
  refine ⟨by decide, by decide, by decide, by decide, by decide, by decide⟩

/-- C7 (failing input). For a present 16-bit bitmap of width 1, `get_image_spec` reports
`bytes_per_row = 3`, which is not a multiple of 4 (the smallest multiple of 4 that is at
least `1 * 2` is 4): the padding of case 16 is halved. -/
theorem get_image_spec_stride_16 :
    (bmiHeader obj16.mem).biBitCount = 16 ∧
    (bmiHeader obj16.mem).biWidth = 1 ∧
    (get_image_spec (clipboardWith CF_DIB obj16) {}).1 = true ∧
    (get_image_spec (clipboardWith CF_DIB obj16) {}).2.bytes_per_row = 3 ∧
    ¬ (4 ∣ (get_image_spec (clipboardWith CF_DIB obj16) {}).2.bytes_per_row) := by
  refine ⟨by decide, by decide, by decide, by decide, by decide⟩

theorem rdLE_congr (m m' : Mem) : ∀ k a, (∀ i, a ≤ i → i < a + k → m i = m' i) →
    rdLE m a k = rdLE m' a k := by
  intro k
  induction k with
  | zero => intro a _; rfl
  | succ k ih =>
    intro a h
    unfold rdLE
    rw [ih (a + 1) (fun i h1 h2 => h i (by omega) (by omega))]
    unfold byteAt
    rw [h a (by omega) (by omega)]

theorem rdLE_wrLE (m : Mem) (a n v : Nat) : ∀ k j, j + k ≤ n →
    rdLE (wrLE m a n v) (a + j) k = v / 256 ^ j % 256 ^ k := by
  intro k
  induction k with
  | zero => intro j _; simp [rdLE, Nat.mod_one]
  | succ k ih =>
    intro j h
    unfold rdLE
    rw [show a + j + 1 = a + (j + 1) by omega, ih (j + 1) (by omega)]
    have hb : byteAt (wrLE m a n v) (a + j) = v / 256 ^ j % 256 := by
      unfold byteAt wrLE
      rw [if_pos ⟨by omega, by omega⟩, show a + j - a = j by omega, Nat.mod_mod]
    rw [hb]
    conv_rhs => rw [Nat.pow_succ', Nat.mod_mul]
    rw [Nat.pow_succ, Nat.div_div_eq_div_mul]

theorem rd64_wrLE (m : Mem) (v : Nat) (h : v < 2 ^ 64) : rd64 (wrLE m 0 sizeofSizeT v) 0 = v := by
  have := rdLE_wrLE m 0 8 v 8 0 (by omega)
  simp only [Nat.zero_add, Nat.pow_zero, Nat.div_one] at this
  unfold rd64 sizeofSizeT
  rw [this]
  exact Nat.mod_eq_of_lt (by omega)

theorem rd64_memcpy (dst src : Mem) (s n : Nat) :
    rd64 (memcpy dst sizeofSizeT src s n) 0 = rd64 dst 0 := by
  unfold rd64
  apply rdLE_congr
  intro i _ h2
  unfold memcpy sizeofSizeT
  rw [if_neg (by omega)]

theorem memTake_memOfList (l : List Nat) (hb : ∀ b ∈ l, b < 256) :
    memTake (memOfList l) l.length = l := by
  apply List.ext_getElem
  · simp [memTake]
  · intro i h1 h2
    simp only [memTake, List.getElem_map, List.getElem_range, byteAt, memOfList]
    rw [List.getD_eq_getElem _ _ h2]
    exact Nat.mod_eq_of_lt (hb _ (List.getElem_mem _))

theorem memTake_congr (m m' : Mem) (n : Nat) (h : ∀ i < n, byteAt m i = byteAt m' i) :
    memTake m n = memTake m' n := by
  unfold memTake
  apply List.map_congr_left
  intro i hi
  exact h i (List.mem_range.1 hi)

/-- The clipboard after a successful `SetClipboardData(f, o)`. -/
theorem SetClipboardData_ok (os : Os) (cb : Clipboard) (f : Nat) (o : GlobalObj)
    (hset : os.setOk = true) :
    (SetClipboardData os cb f (some o)).2.avail f = true ∧
    (SetClipboardData os cb f (some o)).2.data f = some o := by
  simp [SetClipboardData, hset]

theorem set_data_custom (F : Formats) (C : Codec) (os : Os) (cb : Clipboard) (f : Nat)
    (buf : Mem) (len : Nat) (hf : f ≠ F.text_format) (halloc : os.allocOk = true) :
    set_data F C os cb f buf len =
      (true, (SetClipboardData os cb f (some
        { mem := memcpy (wrLE (fun _ => 0) 0 sizeofSizeT len) sizeofSizeT buf 0 len
          size := u64 (len + sizeofSizeT)
          lockable := true })).2) := by
  simp [set_data, hf, GlobalAlloc, halloc, GlobalLock]

/-- C1 (amended). Custom-format round trip: for a custom format `f` (none of `text_format`,
`image_format`, `empty_format`), a byte sequence `bytes` of any length `n` that a `size_t` can hold, and any
prior clipboard, when the allocation and the write succeed, after
`set_data(f, bytes, n)` the call `get_data_length(f)` returns `n` and
`get_data(f, buf, len)` with `len ≥ n` returns true, leaves `buf[0..n)` equal to `bytes` and
the rest of `buf` unchanged. -/
theorem set_data_get_data_custom (F : Formats) (C : Codec) (os : Os) (cb : Clipboard)
    (f : Nat) (bytes : List Nat) (buf : Mem) (len : Nat)
    (hf : f ≠ F.text_format) (hi : f ≠ F.image_format) (he : f ≠ F.empty_format)
    (hb : ∀ b ∈ bytes, b < 256) (hn : bytes.length < 2 ^ 64)
    (halloc : os.allocOk = true) (hset : os.setOk = true) (hlen : bytes.length ≤ len) :
    (set_data F C os cb f (memOfList bytes) bytes.length).1 = true ∧
    get_data_length F C (set_data F C os cb f (memOfList bytes) bytes.length).2 f
      = bytes.length ∧
    ∃ out, get_data F C (set_data F C os cb f (memOfList bytes) bytes.length).2 f
        (some buf) len = (true, some out) ∧
      memTake out bytes.length = bytes ∧ ∀ i, bytes.length ≤ i → out i = buf i := by
  rw [set_data_custom F C os cb f _ _ hf halloc]
  obtain ⟨hav, hd⟩ := SetClipboardData_ok os cb f
    { mem := memcpy (wrLE (fun _ => 0) 0 sizeofSizeT bytes.length) sizeofSizeT
        (memOfList bytes) 0 bytes.length
      size := u64 (bytes.length + sizeofSizeT)
      lockable := true } hset
  have hrd : rd64 (memcpy (wrLE (fun _ => 0) 0 sizeofSizeT bytes.length) sizeofSizeT
      (memOfList bytes) 0 bytes.length) 0 = bytes.length := by
    rw [rd64_memcpy, rd64_wrLE _ _ hn]
  refine ⟨rfl, ?_, ?_⟩
  · simp [get_data_length, hf, he, IsClipboardFormatAvailable, GetClipboardData, hav, hd,
      GlobalLock, hrd]
  · refine ⟨memcpy buf 0 (memcpy (wrLE (fun _ => 0) 0 sizeofSizeT bytes.length) sizeofSizeT
      (memOfList bytes) 0 bytes.length) sizeofSizeT bytes.length, ?_, ?_, ?_⟩
    · simp [get_data, is_convertible, hf, hi, IsClipboardFormatAvailable, GetClipboardData,
        hav, hd, GlobalLock, hrd, hlen]
    · refine (memTake_congr _ (memOfList bytes) _ ?_).trans (memTake_memOfList bytes hb)
      intro i hi'
      have h1 : byteAt (memcpy buf 0 (memcpy (wrLE (fun _ => 0) 0 sizeofSizeT bytes.length)
          sizeofSizeT (memOfList bytes) 0 bytes.length) sizeofSizeT bytes.length) i =
          byteAt (memOfList bytes) i := by
        unfold memcpy sizeofSizeT
        simp only [byteAt]
        rw [if_pos ⟨by omega, by omega⟩, if_pos ⟨by omega, by omega⟩]
        simp [Nat.mod_mod]
      exact h1
    · intro i hi'
      unfold memcpy
      rw [if_neg (by omega)]

theorem set_data_get_data_custom_witness :
    (set_data sampleFormats asciiCodec osOk emptyClipboard 0xC000 (memOfList [7, 8, 9])
      [7, 8, 9].length).1 = true ∧
    get_data_length sampleFormats asciiCodec (set_data sampleFormats asciiCodec osOk
      emptyClipboard 0xC000 (memOfList [7, 8, 9]) [7, 8, 9].length).2 0xC000
      = [7, 8, 9].length ∧
    ∃ out, get_data sampleFormats asciiCodec (set_data sampleFormats asciiCodec osOk
        emptyClipboard 0xC000 (memOfList [7, 8, 9]) [7, 8, 9].length).2 0xC000
        (some (memOfList [1, 1, 1, 1, 1])) 5 = (true, some out) ∧
      memTake out [7, 8, 9].length = [7, 8, 9] ∧
      ∀ i, [7, 8, 9].length ≤ i → out i = memOfList [1, 1, 1, 1, 1] i :=
  set_data_get_data_custom sampleFormats asciiCodec osOk emptyClipboard 0xC000 [7, 8, 9]
    (memOfList [1, 1, 1, 1, 1]) 5 (by decide) (by decide) (by decide) (by decide) (by decide)
    rfl rfl (by decide)

/-- C1 (counterexample). For `f = image_format`, which is neither `text_format` nor
`empty_format`, `set_data(f, bytes, 3)` returns true on an empty clipboard and
`get_data_length(f)` returns 3, but `is_convertible(f)` looks for `CF_DIB`, which is absent,
and `get_data(f, buf, 5)` returns false. -/
theorem set_data_get_data_image_format :
    sampleFormats.image_format ≠ sampleFormats.text_format ∧
    sampleFormats.image_format ≠ sampleFormats.empty_format ∧
    (set_data sampleFormats asciiCodec osOk emptyClipboard sampleFormats.image_format
      (memOfList [7, 8, 9]) 3).1 = true ∧
    get_data_length sampleFormats asciiCodec (set_data sampleFormats asciiCodec osOk
      emptyClipboard sampleFormats.image_format (memOfList [7, 8, 9]) 3).2
      sampleFormats.image_format = 3 ∧
    is_convertible sampleFormats (set_data sampleFormats asciiCodec osOk emptyClipboard
      sampleFormats.image_format (memOfList [7, 8, 9]) 3).2 sampleFormats.image_format
      = false ∧
    (get_data sampleFormats asciiCodec (set_data sampleFormats asciiCodec osOk emptyClipboard
      sampleFormats.image_format (memOfList [7, 8, 9]) 3).2 sampleFormats.image_format
      (some (memOfList [1, 1, 1, 1, 1])) 5).1 = false := by
  refine ⟨by decide, by decide, by decide, by decide, by decide, by decide⟩

/-- C2. For every format `f`, clipboard and buffer `buf` (null or not): if
`is_convertible(f)` is false then `get_data(f, buf, len)` returns false and `buf` is
unchanged. -/
theorem get_data_not_convertible (F : Formats) (C : Codec) (cb : Clipboard) (f : Nat)
    (buf : Option Mem) (len : Nat) (h : is_convertible F cb f = false) :
    get_data F C cb f buf len = (false, buf) := by
  cases buf with
  | none => rfl
  | some b => simp [get_data, h]

theorem get_data_not_convertible_witness :
    is_convertible sampleFormats emptyClipboard 0xC000 = false ∧
    get_data sampleFormats asciiCodec emptyClipboard 0xC000 (some (memOfList [1, 2, 3])) 3
      = (false, some (memOfList [1, 2, 3])) :=
  ⟨by decide, get_data_not_convertible sampleFormats asciiCodec emptyClipboard 0xC000
    (some (memOfList [1, 2, 3])) 3 (by decide)⟩

theorem wcharAt_wrWide_lt (m : Mem) (ws : List Nat) (i : Nat) (hi : i < ws.length)
    (hw : ws.getD i 0 < 2 ^ 16) : wcharAt (wrWide m ws) i = ws.getD i 0 := by
  unfold wcharAt rd16
  simp only [rdLE, byteAt, wrWide, sizeofWCHAR]
  rw [if_pos (by omega), if_pos (by omega)]
  rw [show 2 * i / 2 = i by omega, show (2 * i + 1) / 2 = i by omega,
    show 2 * i % 2 = 0 by omega, show (2 * i + 1) % 2 = 1 by omega]
  simp only [Nat.pow_zero, Nat.div_one, Nat.pow_one, Nat.mod_mod]
  omega

theorem wcharAt_wrWide_ge (ws : List Nat) (i : Nat) (hi : ws.length ≤ i) :
    wcharAt (wrWide (fun _ => 0) ws) i = 0 := by
  unfold wcharAt rd16
  simp only [rdLE, byteAt, wrWide, sizeofWCHAR]
  rw [if_neg (by omega), if_neg (by omega)]

theorem wcslen.loop_eq (m : Mem) (L : Nat) (hz : wcharAt m L = 0)
    (hnz : ∀ j < L, wcharAt m j ≠ 0) :
    ∀ n i, i ≤ L → L < i + n → wcslen.loop m n i = L := by
  intro n
  induction n with
  | zero => intro i h1 h2; omega
  | succ n ih =>
    intro i h1 h2
    unfold wcslen.loop
    rcases Nat.eq_or_lt_of_le h1 with h | h
    · subst h; rw [if_pos hz]
    · rw [if_neg (hnz i h)]
      exact ih (i + 1) h (by omega)

theorem getD_mem_of_lt (ws : List Nat) (i : Nat) (hi : i < ws.length) : ws.getD i 0 ∈ ws := by
  rw [List.getD_eq_getElem _ _ hi]
  exact List.getElem_mem _

theorem wcslen_wrWide (ws : List Nat) (size : Nat) (hw : ∀ w ∈ ws, 0 < w ∧ w < 2 ^ 16)
    (hs : ws.length < size / sizeofWCHAR) :
    wcslen (wrWide (fun _ => 0) ws) size = ws.length := by
  unfold wcslen
  apply wcslen.loop_eq _ _ (wcharAt_wrWide_ge ws _ (le_refl _))
  · intro j hj
    rw [wcharAt_wrWide_lt _ ws j hj (hw _ (getD_mem_of_lt ws j hj)).2]
    exact Nat.pos_iff_ne_zero.1 (hw _ (getD_mem_of_lt ws j hj)).1
  · omega
  · omega

theorem wideTake_wrWide (ws : List Nat) (hw : ∀ w ∈ ws, 0 < w ∧ w < 2 ^ 16) :
    wideTake (wrWide (fun _ => 0) ws) ws.length = ws := by
  apply List.ext_getElem
  · simp [wideTake]
  · intro i h1 h2
    simp only [wideTake, List.getElem_map, List.getElem_range]
    rw [wcharAt_wrWide_lt _ ws i h2 (hw _ (getD_mem_of_lt ws i h2)).2,
      List.getD_eq_getElem _ _ h2]

theorem toInt32_of_lt {n : Nat} (h : n < 2 ^ 31) : toInt32 n = (n : Int) := by
  unfold toInt32
  have e : n % 2 ^ 32 = n := Nat.mod_eq_of_lt (by omega)
  rw [e, if_pos h]

theorem MultiByteToWideChar_of_pos (C : Codec) (buf : Mem) {len : Nat} (h0 : 0 < len)
    (h31 : len < 2 ^ 31) :
    MultiByteToWideChar C buf (toInt32 len) = C.mbToWc (memTake buf len) := by
  unfold MultiByteToWideChar
  rw [toInt32_of_lt h31, if_pos (by omega), Int.toNat_ofNat]

theorem set_data_text (F : Formats) (C : Codec) (os : Os) (cb : Clipboard) (buf : Mem)
    (len : Nat) (h0 : 0 < len) (h31 : len < 2 ^ 31) (hws : C.mbToWc (memTake buf len) ≠ [])
    (halloc : os.allocOk = true) :
    set_data F C os cb F.text_format buf len =
      (true, (SetClipboardData os cb CF_UNICODETEXT (some
        { mem := wrWide (fun _ => 0) (C.mbToWc (memTake buf len))
          size := u64 (sizeofWCHAR * ((C.mbToWc (memTake buf len)).length + 1))
          lockable := true })).2) := by
  have hl : 0 < (C.mbToWc (memTake buf len)).length := List.length_pos.2 hws
  simp [set_data, h0, MultiByteToWideChar_of_pos C buf h0 h31, hl, GlobalAlloc, halloc,
    storeLocked, GlobalLock]

/-- C10 (amended). Text round trip: for every non-empty UTF-8 byte sequence `s` of length
`n` that the system converts to a non-empty wide string without a zero code unit and back
to `s` (lengths being reported as `int`), and every prior clipboard, when the allocation
and the write succeed, after `set_data(text_format, s, n)` the call
`get_data(text_format, buf, len)` with `len ≥ get_data_length(text_format)` returns true and
`buf[0..n)` holds `s`, and `get_data_length(text_format) ≥ n`. -/
theorem set_data_get_data_text (F : Formats) (C : Codec) (os : Os) (cb : Clipboard)
    (s : List Nat) (buf : Mem) (len : Nat)
    (hne : s ≠ []) (hb : ∀ b ∈ s, b < 256) (hn : s.length < 2 ^ 31)
    (hws : C.mbToWc s ≠ []) (hwn : (C.mbToWc s).length < 2 ^ 31)
    (hw : ∀ w ∈ C.mbToWc s, 0 < w ∧ w < 2 ^ 16)
    (hinv : C.wcToMb (C.mbToWc s) = s)
    (halloc : os.allocOk = true) (hset : os.setOk = true)
    (hlen : get_data_length F C
      (set_data F C os cb F.text_format (memOfList s) s.length).2 F.text_format ≤ len) :
    (set_data F C os cb F.text_format (memOfList s) s.length).1 = true ∧
    (∃ out, get_data F C (set_data F C os cb F.text_format (memOfList s) s.length).2
        F.text_format (some buf) len = (true, some out) ∧ memTake out s.length = s) ∧
    s.length ≤ get_data_length F C
      (set_data F C os cb F.text_format (memOfList s) s.length).2 F.text_format := by
  have hpos : 0 < s.length := List.length_pos.2 hne
  have hmt := memTake_memOfList s hb
  have hsd := set_data_text F C os cb (memOfList s) s.length hpos hn
    (by rw [hmt]; exact hws) halloc
  rw [hmt] at hsd
  rw [hsd] at hlen ⊢
  obtain ⟨hav, hd⟩ := SetClipboardData_ok os cb CF_UNICODETEXT
    { mem := wrWide (fun _ => 0) (C.mbToWc s)
      size := u64 (sizeofWCHAR * ((C.mbToWc s).length + 1))
      lockable := true } hset
  have hsize : (C.mbToWc s).length < u64 (sizeofWCHAR * ((C.mbToWc s).length + 1)) / sizeofWCHAR := by
    unfold u64 sizeofWCHAR
    omega
  have hlenW := wcslen_wrWide (C.mbToWc s) _ hw hsize
  have hout : C.wcToMb (wideTake (wrWide (fun _ => 0) (C.mbToWc s))
      (wcslen (wrWide (fun _ => 0) (C.mbToWc s))
        (u64 (sizeofWCHAR * ((C.mbToWc s).length + 1))))) = s := by
    rw [hlenW, wideTake_wrWide _ hw, hinv]
  have hu : u64 (s.length + 1) = s.length + 1 := by unfold u64; omega
  have hgl : get_data_length F C (SetClipboardData os cb CF_UNICODETEXT (some
        { mem := wrWide (fun _ => 0) (C.mbToWc s)
          size := u64 (sizeofWCHAR * ((C.mbToWc s).length + 1))
          lockable := true })).2 F.text_format = s.length + 1 := by
    simp [get_data_length, IsClipboardFormatAvailable, GetClipboardData, hav, hd, GlobalLock,
      hout, hu]
  rw [hgl] at hlen ⊢
  refine ⟨rfl, ⟨memcpy buf 0 (memOfList s) 0 s.length, ?_, ?_⟩, by omega⟩
  · simp [get_data, is_convertible, IsClipboardFormatAvailable, GetClipboardData, hav, hd,
      GlobalLock, hout, hu, hlen]
  · refine (memTake_congr _ (memOfList s) _ ?_).trans hmt
    intro i hi
    unfold memcpy
    simp only [byteAt]
    rw [if_pos ⟨by omega, by omega⟩]
    simp [Nat.mod_mod]

theorem set_data_get_data_text_witness :
    (set_data sampleFormats asciiCodec osOk emptyClipboard sampleFormats.text_format
      (memOfList [104, 105]) [104, 105].length).1 = true ∧
    (∃ out, get_data sampleFormats asciiCodec (set_data sampleFormats asciiCodec osOk
        emptyClipboard sampleFormats.text_format (memOfList [104, 105]) [104, 105].length).2
        sampleFormats.text_format (some (memOfList [1, 1, 1, 1, 1])) 5 = (true, some out) ∧
      memTake out [104, 105].length = [104, 105]) ∧
    [104, 105].length ≤ get_data_length sampleFormats asciiCodec
      (set_data sampleFormats asciiCodec osOk emptyClipboard sampleFormats.text_format
        (memOfList [104, 105]) [104, 105].length).2 sampleFormats.text_format :=
  set_data_get_data_text sampleFormats asciiCodec osOk emptyClipboard [104, 105]
    (memOfList [1, 1, 1, 1, 1]) 5 (by decide) (by decide) (by decide) (by decide) (by decide)
    (by decide) (by decide) rfl rfl (by decide)

/-- C10 (counterexample). Three valid inputs on which `set_data(text_format, s, n)` returns
true and the round trip fails: the empty string on an empty clipboard (`get_data` returns
false); the string `a`, NUL, `b` (`get_data_length` is 2 < 3 and `buf` receives only `a`);
and the string `hi` when the system refuses `SetClipboardData` (`get_data` returns false). -/
theorem set_data_get_data_text_fails :
    ((set_data sampleFormats asciiCodec osOk emptyClipboard sampleFormats.text_format
        (memOfList []) 0).1 = true ∧
      (get_data sampleFormats asciiCodec (set_data sampleFormats asciiCodec osOk emptyClipboard
        sampleFormats.text_format (memOfList []) 0).2 sampleFormats.text_format
        (some (memOfList [1, 1, 1, 1, 1])) 5).1 = false) ∧
    ((set_data sampleFormats asciiCodec osOk emptyClipboard sampleFormats.text_format
        (memOfList [97, 0, 98]) 3).1 = true ∧
      asciiCodec.wcToMb (asciiCodec.mbToWc [97, 0, 98]) = [97, 0, 98] ∧
      get_data_length sampleFormats asciiCodec (set_data sampleFormats asciiCodec osOk
        emptyClipboard sampleFormats.text_format (memOfList [97, 0, 98]) 3).2
        sampleFormats.text_format = 2 ∧
      (get_data sampleFormats asciiCodec (set_data sampleFormats asciiCodec osOk emptyClipboard
        sampleFormats.text_format (memOfList [97, 0, 98]) 3).2 sampleFormats.text_format
        (some (memOfList [1, 1, 1, 1, 1])) 5).2.map (fun m => memTake m 3) = some [97, 1, 1]) ∧
    ((set_data sampleFormats asciiCodec osNoSet emptyClipboard sampleFormats.text_format
        (memOfList [104, 105]) 2).1 = true ∧
      (get_data sampleFormats asciiCodec (set_data sampleFormats asciiCodec osNoSet
        emptyClipboard sampleFormats.text_format (memOfList [104, 105]) 2).2
        sampleFormats.text_format (some (memOfList [1, 1, 1, 1, 1])) 5).1 = false) := by
  refine ⟨⟨by decide, by decide⟩, ⟨by decide, by decide, by decide, by decide⟩,
    ⟨by decide, by decide⟩⟩

theorem get_image_present (handler : Bool) (fresh : Mem) (cb : Clipboard) (out0 : image)
    (o : GlobalObj) (hav : cb.avail CF_DIB = true) (hd : cb.data CF_DIB = some o) :
    get_image handler fresh cb out0 =
      if (bmiHeader o.mem).biCompression ≠ BI_RGB ∧
          (bmiHeader o.mem).biCompression ≠ BI_BITFIELDS then
        (Outcome.returns false, out0,
          if handler then [ErrorCode.PixelFormatNotSupported] else [])
      else
        match get_image.decode o.mem (get_image_spec cb {}).2 fresh with
        | Outcome.throws e => (Outcome.throws e, out0, [])
        | Outcome.returns data =>
          (Outcome.returns true, { spec := (get_image_spec cb {}).2, data := data }, []) := by
  have h1 : (get_image_spec cb {}).1 = true :=
    (get_image_spec_true_iff cb {}).2 ⟨hav, o, hd⟩
  unfold get_image
  simp only [h1, GetClipboardData, hd]
  rfl

theorem biClrUsed_lt (bi : Mem) : (bmiHeader bi).biClrUsed < 2 ^ 32 := rd32_lt bi 32

theorem get_image.colors_neg_iff (bi : Mem) :
    get_image.colors bi < 0 ↔ 2 ^ 31 ≤ (bmiHeader bi).biClrUsed := by
  have h := biClrUsed_lt bi
  unfold get_image.colors toInt32
  have e : (bmiHeader bi).biClrUsed % 2 ^ 32 = (bmiHeader bi).biClrUsed := Nat.mod_eq_of_lt h
  rw [e]
  split_ifs <;> omega

/-- The `switch` of `get_image` throws exactly for an 8-bit bitmap that declares `2^31` or
more palette entries. -/
theorem get_image.decode_throws_iff (bi : Mem) (spec : image_spec) (img : Mem) :
    get_image.decode bi spec img = Outcome.throws CppException.length_error ↔
      ((bmiHeader bi).biBitCount = 8 ∧ 2 ^ 31 ≤ (bmiHeader bi).biClrUsed) := by
  rw [← get_image.colors_neg_iff]
  unfold get_image.decode
  constructor
  · intro h
    by_cases h8 : (bmiHeader bi).biBitCount = 8
    · by_cases hneg : get_image.colors bi < 0
      · exact ⟨h8, hneg⟩
      · simp [h8, hneg] at h
    · exfalso
      revert h
      simp only [h8, if_false]
      split_ifs <;> simp
  · rintro ⟨h8, hneg⟩
    simp [h8, hneg]

/-- C9 (amended). For every clipboard holding a bitmap: `get_image` returns false exactly
when the header's compression is neither `BI_RGB` nor `BI_BITFIELDS`; in that case the error
handler, when one is registered, is invoked once, with `PixelFormatNotSupported`; when the
compression is one of those two, no error is reported and `get_image` returns true, unless
the bitmap is an 8-bit one that declares `2^31` or more palette entries (`biClrUsed`), for
which `get_image` throws `std::length_error` and leaves `output_img` as it was. -/
theorem get_image_compression (handler : Bool) (fresh : Mem) (cb : Clipboard) (out0 : image)
    (o : GlobalObj) (hav : cb.avail CF_DIB = true) (hd : cb.data CF_DIB = some o) :
    ((get_image handler fresh cb out0).1 = Outcome.returns false ↔
      ((bmiHeader o.mem).biCompression ≠ BI_RGB ∧
        (bmiHeader o.mem).biCompression ≠ BI_BITFIELDS)) ∧
    (handler = true →
      ((get_image handler fresh cb out0).2.2 = [ErrorCode.PixelFormatNotSupported] ↔
        ((bmiHeader o.mem).biCompression ≠ BI_RGB ∧
          (bmiHeader o.mem).biCompression ≠ BI_BITFIELDS))) ∧
    (((bmiHeader o.mem).biCompression = BI_RGB ∨
        (bmiHeader o.mem).biCompression = BI_BITFIELDS) →
      ((bmiHeader o.mem).biBitCount = 8 → (bmiHeader o.mem).biClrUsed < 2 ^ 31) →
      (get_image handler fresh cb out0).1 = Outcome.returns true ∧
        (get_image handler fresh cb out0).2.2 = []) ∧
    (((bmiHeader o.mem).biCompression = BI_RGB ∨
        (bmiHeader o.mem).biCompression = BI_BITFIELDS) →
      (bmiHeader o.mem).biBitCount = 8 → 2 ^ 31 ≤ (bmiHeader o.mem).biClrUsed →
      (get_image handler fresh cb out0).1 = Outcome.throws CppException.length_error ∧
        (get_image handler fresh cb out0).2.1 = out0 ∧
        (get_image handler fresh cb out0).2.2 = []) := by
  rw [get_image_present handler fresh cb out0 o hav hd]
  by_cases hc : (bmiHeader o.mem).biCompression ≠ BI_RGB ∧
      (bmiHeader o.mem).biCompression ≠ BI_BITFIELDS
  · rw [if_pos hc]
    refine ⟨by simp [hc], fun hh => by simp [hh, hc], fun h' => ?_, fun h' => ?_⟩
    · rcases h' with h' | h'
      · exact absurd h' hc.1
      · exact absurd h' hc.2
    · rcases h' with h' | h'
      · exact absurd h' hc.1
      · exact absurd h' hc.2
  · rw [if_neg hc]
    cases hdc : get_image.decode o.mem (get_image_spec cb {}).2 fresh with
    | returns data =>
      refine ⟨by simp [hc], fun _ => by simp [hc], fun _ _ => ⟨rfl, rfl⟩, fun _ h8 hge => ?_⟩
      have := (get_image.decode_throws_iff o.mem (get_image_spec cb {}).2 fresh).2 ⟨h8, hge⟩
      rw [hdc] at this
      cases this
    | throws e =>
      cases e
      obtain ⟨h8, hge⟩ :=
        (get_image.decode_throws_iff o.mem (get_image_spec cb {}).2 fresh).1 hdc
      refine ⟨by simp [hc], fun _ => by simp [hc], fun _ hp => ?_, fun _ _ _ => ⟨rfl, rfl, rfl⟩⟩
      have := hp h8
      omega

theorem get_image_compression_witness :
    (get_image true (fun _ => 0) (clipboardWith CF_DIB objRle) emptyImage).1
      = Outcome.returns false ∧
    (get_image true (fun _ => 0) (clipboardWith CF_DIB objRle) emptyImage).2.2
      = [ErrorCode.PixelFormatNotSupported] :=
  have h := get_image_compression true (fun _ => 0) (clipboardWith CF_DIB objRle) emptyImage
    objRle (by decide) (by rfl)
  ⟨h.1.2 ⟨by decide, by decide⟩, (h.2.1 rfl).2 ⟨by decide, by decide⟩⟩

/-- C9 (counterexample). The clipboard holds an uncompressed (`BI_RGB`) 8-bit bitmap whose
header declares `biClrUsed = 0x80000000`; `colors` is the negative `int` `-2^31`, the
construction of the palette vector throws `std::length_error`, and `get_image` does not
return true. -/
theorem get_image_palette_throws :
    (clipboardWith CF_DIB objPalette31).avail CF_DIB = true ∧
    (bmiHeader objPalette31.mem).biCompression = BI_RGB ∧
    (bmiHeader objPalette31.mem).biBitCount = 8 ∧
    get_image.colors objPalette31.mem = -(2 ^ 31) ∧
    (get_image true (fun _ => 0) (clipboardWith CF_DIB objPalette31) emptyImage).1
      = Outcome.throws CppException.length_error ∧
    (get_image true (fun _ => 0) (clipboardWith CF_DIB objPalette31) emptyImage).1
      ≠ Outcome.returns true := by
  refine ⟨by decide, by decide, by decide, by decide, by decide, by decide⟩

theorem u32_of_lt {n : Nat} (h : n < 2 ^ 32) : u32 n = n := Nat.mod_eq_of_lt h

theorem get_image.rows_frame (bpr : Nat) (src : Mem) :
    ∀ n s img a, (∀ y < n, y * bpr < 2 ^ 32) → n * bpr ≤ a →
      get_image.rows bpr src n s img a = img a := by
  intro n
  induction n with
  | zero => intro s img a _ _; rfl
  | succ n ih =>
    intro s img a hfit ha
    unfold get_image.rows
    have hle : n * bpr + bpr ≤ a := by rw [Nat.succ_mul] at ha; exact ha
    rw [ih _ _ a (fun y hy => hfit y (by omega)) (by omega), u32_of_lt (hfit n (by omega))]
    unfold memcpy
    rw [if_neg (by omega)]

theorem get_image.rows_spec (bpr : Nat) (src : Mem) :
    ∀ n s img, (∀ y < n, y * bpr < 2 ^ 32) → ∀ y < n, ∀ i < bpr,
      get_image.rows bpr src n s img (y * bpr + i) = byteAt src (s + (n - 1 - y) * bpr + i) := by
  intro n
  induction n with
  | zero => intro s img _ y hy; omega
  | succ n ih =>
    intro s img hfit y hy i hi
    unfold get_image.rows
    rcases Nat.eq_or_lt_of_le (Nat.le_of_lt_succ hy) with h | h
    · subst h
      rw [get_image.rows_frame bpr src y _ _ _ (fun z hz => hfit z (by omega)) (by omega),
        u32_of_lt (hfit y (by omega))]
      unfold memcpy
      rw [if_pos ⟨by omega, by omega⟩]
      rw [show y + 1 - 1 - y = 0 by omega, Nat.zero_mul, Nat.add_zero,
        show y * bpr + i - y * bpr = i by omega]
    · rw [ih _ _ (fun z hz => hfit z (by omega)) y h i hi]
      have e : n + 1 - 1 - y = (n - 1 - y) + 1 := by omega
      rw [e, Nat.succ_mul]
      congr 1
      omega

theorem get_image.rowCount_eq {h : Nat} (hh : h ≤ 2 ^ 31) : get_image.rowCount h = h := by
  unfold get_image.rowCount toInt32 u32
  rcases Nat.eq_zero_or_pos h with h0 | h0
  · subst h0; decide
  · have e : (h + (2 ^ 32 - 1)) % 2 ^ 32 = h - 1 := by omega
    have e2 : (h - 1) % 2 ^ 32 = h - 1 := by omega
    rw [e, e2, if_pos (by omega)]
    omega

theorem get_image_spec_height_le (cb : Clipboard) (o : GlobalObj)
    (hav : cb.avail CF_DIB = true) (hd : cb.data CF_DIB = some o) :
    (get_image_spec cb {}).2.height ≤ 2 ^ 31 := by
  rw [get_image_spec_present cb {} o hav hd]
  have z : (0 : Nat) < 2 ^ 32 := by decide
  obtain ⟨-, -, -, -, -, -, -, -, -, hh, -⟩ :=
    get_image_spec.masks_fields o.mem (get_image_spec.header o.mem) z z z z
  simp only [get_image_spec.shifts]
  rw [hh]
  exact header_height_le o.mem

/-- C3 (amended). Vertical flip: for every present uncompressed 24-bit or 32-bit source bitmap
whose last row starts at an offset that fits in 32 bits
(`(height - 1) * bytes_per_row < 2^32`), `get_image` returns true, the image has the spec
that `get_image_spec` reports and, for every `y < height`, output row `y` (the
`bytes_per_row` bytes at offset `y * bytes_per_row`) equals source row `height - 1 - y` of
the pixel data that starts right after the header. -/
theorem get_image_flip (handler : Bool) (fresh : Mem) (cb : Clipboard) (out0 : image)
    (o : GlobalObj) (hav : cb.avail CF_DIB = true) (hd : cb.data CF_DIB = some o)
    (hbits : (bmiHeader o.mem).biBitCount = 24 ∨ (bmiHeader o.mem).biBitCount = 32)
    (hcomp : (bmiHeader o.mem).biCompression = BI_RGB)
    (hfit : ((get_image_spec cb {}).2.height - 1) * (get_image_spec cb {}).2.bytes_per_row
      < 2 ^ 32) :
    (get_image handler fresh cb out0).1 = Outcome.returns true ∧
    (get_image handler fresh cb out0).2.1.spec = (get_image_spec cb {}).2 ∧
    ∀ y < (get_image_spec cb {}).2.height, ∀ i < (get_image_spec cb {}).2.bytes_per_row,
      (get_image handler fresh cb out0).2.1.data
          (y * (get_image_spec cb {}).2.bytes_per_row + i) =
        byteAt o.mem ((bmiHeader o.mem).biSize +
          ((get_image_spec cb {}).2.height - 1 - y) * (get_image_spec cb {}).2.bytes_per_row
          + i) := by
  have hh := get_image_spec_height_le cb o hav hd
  have hdec : get_image.decode o.mem (get_image_spec cb {}).2 fresh =
      Outcome.returns (get_image.rows (get_image_spec cb {}).2.bytes_per_row o.mem
        (get_image_spec cb {}).2.height (bmiHeader o.mem).biSize fresh) := by
    unfold get_image.decode
    rw [get_image.rowCount_eq hh]
    rcases hbits with h24 | h32
    · simp [h24]
    · simp [h32, hcomp, BI_RGB, BI_BITFIELDS]
  rw [get_image_present handler fresh cb out0 o hav hd]
  rw [if_neg (fun h => h.1 hcomp), hdec]
  refine ⟨rfl, rfl, ?_⟩
  intro y hy i hi
  show get_image.rows _ _ _ _ _ _ = _
  apply get_image.rows_spec _ _ _ _ _ _ y hy i hi
  intro z hz
  refine lt_of_le_of_lt (Nat.mul_le_mul_right _ ?_) hfit
  omega

theorem get_image_flip_witness :
    (get_image true (fun _ => 0) (clipboardWith CF_DIB obj24) emptyImage).1 = Outcome.returns true ∧
    (get_image_spec (clipboardWith CF_DIB obj24) {}).2.height = 2 ∧
    (get_image_spec (clipboardWith CF_DIB obj24) {}).2.bytes_per_row = 8 ∧
    memTake (get_image true (fun _ => 0) (clipboardWith CF_DIB obj24) emptyImage).2.1.data 16
      = [9, 10, 11, 12, 13, 14, 15, 16, 1, 2, 3, 4, 5, 6, 7, 8] ∧
    (get_image true (fun _ => 0) (clipboardWith CF_DIB obj24) emptyImage).2.1.data (0 * 8 + 0)
      = byteAt obj24.mem (40 + (2 - 1 - 0) * 8 + 0) :=
  have h := get_image_flip true (fun _ => 0) (clipboardWith CF_DIB obj24) emptyImage obj24
    (by decide) (by rfl) (by decide) (by decide) (by decide)
  ⟨h.1, by decide, by decide, by decide, h.2.2 0 (by decide) 0 (by decide)⟩

/-- C3 (counterexample). An uncompressed 32-bit bitmap of width `2^29` and height 3 is
present; `get_image` returns true, and the first byte of output row 2 (offset `2 * 2^31`) is
the untouched byte 0 of the fresh buffer, whereas the first byte of source row 0 is 1: the
offset `y * bytes_per_row` wraps around in `unsigned long`. -/
theorem get_image_flip_overflow :
    (bmiHeader objTall.mem).biBitCount = 32 ∧
    (bmiHeader objTall.mem).biCompression = BI_RGB ∧
    (get_image_spec (clipboardWith CF_DIB objTall) {}).2.height = 3 ∧
    (get_image_spec (clipboardWith CF_DIB objTall) {}).2.bytes_per_row = 2 ^ 31 ∧
    (get_image true (fun _ => 0) (clipboardWith CF_DIB objTall) emptyImage).1 = Outcome.returns true ∧
    (get_image true (fun _ => 0) (clipboardWith CF_DIB objTall) emptyImage).2.1.data
      (2 * 2 ^ 31 + 0) = 0 ∧
    byteAt objTall.mem ((bmiHeader objTall.mem).biSize + (3 - 1 - 2) * 2 ^ 31 + 0) = 1 := by
  refine ⟨by decide, by decide, by decide, by decide, by decide, by decide, by decide⟩

/-- C4 (failing input). For the uncompressed 8-bit 4x2 bitmap `objIndexed4x2`, whose pixel
indices are all below the palette size 2, `get_image` returns true with
`bytes_per_row = 12`; source pixel (0, 0) has index 0, whose palette entry has blue 10, yet
the byte of output pixel (0, 1) at offset `1 * 12 + 3 * 0` is 0: the 32-bit store of the
last pixel of output row 0 has overwritten it (its green and red bytes are 20 and 30). -/
theorem get_image_indexed_overlap :
    (get_image true (fun _ => 0) (clipboardWith CF_DIB objIndexed4x2) emptyImage).1 = Outcome.returns true ∧
    (get_image_spec (clipboardWith CF_DIB objIndexed4x2) {}).2.bytes_per_row = 12 ∧
    byteAt objIndexed4x2.mem (40 + 4 * 2 + 0) = 0 ∧
    rgbBlue objIndexed4x2.mem 0 = 10 ∧
    (get_image true (fun _ => 0) (clipboardWith CF_DIB objIndexed4x2) emptyImage).2.1.data
      (1 * 12 + 3 * 0) = 0 ∧
    memTake (get_image true (fun _ => 0) (clipboardWith CF_DIB objIndexed4x2)
      emptyImage).2.1.data 24 =
      [11, 21, 31, 11, 21, 31, 11, 21, 31, 11, 21, 31,
       0, 20, 30, 11, 21, 31, 10, 20, 30, 11, 21, 31] := by
  refine ⟨by decide, by decide, by decide, by decide, by decide, by decide⟩

/-- C5 (failing input). With 256 palette entries (`biClrUsed = 0`) the source pixel byte
200 is read as the signed `char` -56 and clamped to index 0, so that the pixel receives
palette entry 0 (blue 1, green 2, red 3) and not entry 200 (blue 7, green 8, red 9);
index 5 with 3 palette entries does use entry 2. -/
theorem get_image_index_signed :
    get_image.colors objIndex200.mem = 256 ∧
    byteAt objIndex200.mem (40 + 4 * 256) = 200 ∧
    get_image.index 256 objIndex200.mem (40 + 4 * 256) = 0 ∧
    (get_image true (fun _ => 0) (clipboardWith CF_DIB objIndex200) emptyImage).1 = Outcome.returns true ∧
    memTake (get_image true (fun _ => 0) (clipboardWith CF_DIB objIndex200)
      emptyImage).2.1.data 3 = [1, 2, 3] ∧
    get_image.index 3 (memOfList [5]) 0 = 2 := by
  refine ⟨by decide, by decide, by decide, by decide, by decide, by decide⟩

/-- C11 (failing input). The clipboard holds the unicode text `hi`:
`get_data_length(text_format)` is 3 and `get_data(text_format, buf, 3)` returns true, but
only the two UTF-8 bytes are written; `buf[2]` keeps its previous value 1 and no
terminating marker is stored. On the ANSI path (`CF_TEXT`) the same text is fetched with
its terminator. -/
theorem get_data_text_no_terminator :
    is_convertible sampleFormats (clipboardWith CF_UNICODETEXT objWideHi)
      sampleFormats.text_format = true ∧
    get_data_length sampleFormats asciiCodec (clipboardWith CF_UNICODETEXT objWideHi)
      sampleFormats.text_format = 3 ∧
    (get_data sampleFormats asciiCodec (clipboardWith CF_UNICODETEXT objWideHi)
      sampleFormats.text_format (some (memOfList [1, 1, 1])) 3).1 = true ∧
    (get_data sampleFormats asciiCodec (clipboardWith CF_UNICODETEXT objWideHi)
      sampleFormats.text_format (some (memOfList [1, 1, 1])) 3).2.map (fun m => memTake m 3)
      = some [104, 105, 1] ∧
    get_data_length sampleFormats asciiCodec (clipboardWith CF_TEXT objAnsiHi)
      sampleFormats.text_format = 3 ∧
    (get_data sampleFormats asciiCodec (clipboardWith CF_TEXT objAnsiHi)
      sampleFormats.text_format (some (memOfList [1, 1, 1])) 3).2.map (fun m => memTake m 3)
      = some [104, 105, 0] := by
  refine ⟨by decide, by decide, by decide, by decide, by decide, by decide⟩

/-- C12 (failing input). With `len = 3 > 0`, a custom format and a system that refuses
`SetClipboardData`, `set_data` returns true although the format is not on the clipboard
afterwards; for `text_format` it returns true both when `GlobalAlloc` fails and when
`SetClipboardData` is refused, the clipboard holding no text afterwards. Only the failed
allocation of the custom path returns false. -/
theorem set_data_true_on_failure :
    ((set_data sampleFormats asciiCodec osNoSet emptyClipboard 0xC000
        (memOfList [7, 8, 9]) 3).1 = true ∧
      is_convertible sampleFormats (set_data sampleFormats asciiCodec osNoSet emptyClipboard
        0xC000 (memOfList [7, 8, 9]) 3).2 0xC000 = false) ∧
    ((set_data sampleFormats asciiCodec osNoAlloc emptyClipboard sampleFormats.text_format
        (memOfList [104, 105]) 2).1 = true ∧
      is_convertible sampleFormats (set_data sampleFormats asciiCodec osNoAlloc emptyClipboard
        sampleFormats.text_format (memOfList [104, 105]) 2).2 sampleFormats.text_format
        = false) ∧
    ((set_data sampleFormats asciiCodec osNoSet emptyClipboard sampleFormats.text_format
        (memOfList [104, 105]) 2).1 = true ∧
      is_convertible sampleFormats (set_data sampleFormats asciiCodec osNoSet emptyClipboard
        sampleFormats.text_format (memOfList [104, 105]) 2).2 sampleFormats.text_format
        = false) ∧
    (set_data sampleFormats asciiCodec osNoAlloc emptyClipboard 0xC000
      (memOfList [7, 8, 9]) 3).1 = false := by
  refine ⟨⟨by decide, by decide⟩, ⟨by decide, by decide⟩, ⟨by decide, by decide⟩, by decide⟩

theorem impl.ctor.loop_attempts (answers : Nat → Bool) :
    ∀ n a s,
      ((impl.ctor.loop answers n a s).1 = true ↔
        ∃ k, a ≤ k ∧ k < a + n ∧ answers k = true) ∧
      (impl.ctor.loop answers n a s).2.1 ≤ a + n ∧
      (∀ k, a ≤ k → k + 1 < (impl.ctor.loop answers n a s).2.1 → answers k = false) ∧
      ((impl.ctor.loop answers n a s).1 = true →
        a < (impl.ctor.loop answers n a s).2.1 ∧
        answers ((impl.ctor.loop answers n a s).2.1 - 1) = true) ∧
      ((impl.ctor.loop answers n a s).1 = false →
        (impl.ctor.loop answers n a s).2.1 = a + n) ∧
      (impl.ctor.loop answers n a s).2.2 + a + 1 =
        s + (impl.ctor.loop answers n a s).2.1 +
          (if (impl.ctor.loop answers n a s).1 then 0 else 1) := by
  intro n
  induction n with
  | zero =>
    intro a s
    unfold impl.ctor.loop
    dsimp only
    refine ⟨⟨fun h => by simp at h, fun ⟨k, h1, h2, _⟩ => by omega⟩, by omega,
      fun k h1 h2 => by omega, fun h => by simp at h, fun _ => by omega, by simp⟩
  | succ n ih =>
    intro a s
    unfold impl.ctor.loop
    cases ha : answers a with
    | true =>
      rw [if_pos rfl]
      dsimp only
      refine ⟨⟨fun _ => ⟨a, by omega, by omega, ha⟩, fun _ => rfl⟩, by omega,
        fun k h1 h2 => by omega, fun _ => ⟨by omega, by simpa using ha⟩,
        fun h => by simp at h, by simp; omega⟩
    | false =>
      simp only [Bool.false_eq_true, if_false]
      obtain ⟨h1, h2, h3, h4, h5, h6⟩ := ih (a + 1) (s + 1)
      refine ⟨⟨fun h => ?_, fun ⟨k, hk1, hk2, hk3⟩ => ?_⟩, by omega, fun k hk1 hk2 => ?_,
        fun h => ⟨by have := (h4 h).1; omega, (h4 h).2⟩, fun h => by have := h5 h; omega,
        by omega⟩
      · obtain ⟨k, hk1, hk2, hk3⟩ := h1.1 h
        exact ⟨k, by omega, by omega, hk3⟩
      · apply h1.2
        refine ⟨k, ?_, by omega, hk3⟩
        rcases Nat.eq_or_lt_of_le hk1 with e | e
        · subst e; rw [ha] at hk3; cases hk3
        · exact e
      · rcases Nat.eq_or_lt_of_le hk1 with e | e
        · subst e; exact ha
        · exact h3 k e hk2

/-- C14. Bounded lock acquisition: for every sequence of answers of `OpenClipboard`, the
constructor makes at most 5 attempts, every attempt before the last one made has failed
(so none follows a success), `locked()` is true exactly when one of the first 5 answers
is a success, and the error handler, when one is registered, receives `CannotLock` once
exactly when the first 5 answers are all failures; nothing else is ever reported. -/
theorem impl_ctor_bounded (handler : Bool) (answers : Nat → Bool) :
    (impl.ctor handler answers).attempts ≤ 5 ∧
    (∀ k, k + 1 < (impl.ctor handler answers).attempts → answers k = false) ∧
    (impl.locked (impl.ctor handler answers).self = true ↔ ∃ k, k < 5 ∧ answers k = true) ∧
    (impl.locked (impl.ctor handler answers).self = true →
      answers ((impl.ctor handler answers).attempts - 1) = true) ∧
    (impl.locked (impl.ctor handler answers).self = false →
      (impl.ctor handler answers).attempts = 5) ∧
    (handler = true →
      ((impl.ctor handler answers).errors = [ErrorCode.CannotLock] ↔
        ∀ k, k < 5 → answers k = false)) ∧
    ((impl.ctor handler answers).errors = [] ∨
      (impl.ctor handler answers).errors = [ErrorCode.CannotLock]) := by
  obtain ⟨h1, h2, h3, h4, h5, -⟩ := impl.ctor.loop_attempts answers 5 0 0
  have hall : (impl.ctor.loop answers 5 0 0).1 = false ↔ ∀ k, k < 5 → answers k = false := by
    constructor
    · intro hf k hk
      cases hk' : answers k with
      | false => rfl
      | true =>
        have := h1.2 ⟨k, by omega, by omega, hk'⟩
        rw [hf] at this; cases this
    · intro hf
      cases hl : (impl.ctor.loop answers 5 0 0).1 with
      | false => rfl
      | true =>
        obtain ⟨k, _, hk2, hk3⟩ := h1.1 hl
        rw [hf k (by omega)] at hk3; cases hk3
  simp only [impl.ctor, impl.locked]
  refine ⟨by omega, fun k hk => h3 k (by omega) hk, ?_, fun h => (h4 h).2,
    fun h => by have := h5 h; omega, ?_, ?_⟩
  · rw [h1]
    constructor
    · rintro ⟨k, _, hk2, hk3⟩; exact ⟨k, by omega, hk3⟩
    · rintro ⟨k, hk2, hk3⟩; exact ⟨k, by omega, by omega, hk3⟩
  · intro hh
    rw [← hall]
    cases (impl.ctor.loop answers 5 0 0).1 <;> simp [hh]
  · cases (impl.ctor.loop answers 5 0 0).1 <;> cases handler <;> simp

theorem impl.ctor_locked_iff (handler : Bool) (answers : Nat → Bool) :
    (impl.ctor handler answers).self.m_locked = true ↔ ∃ k, k < 5 ∧ answers k = true := by
  obtain ⟨h1, -⟩ := impl.ctor.loop_attempts answers 5 0 0
  simp only [impl.ctor]
  rw [h1]
  constructor
  · rintro ⟨k, _, hk2, hk3⟩; exact ⟨k, by omega, hk3⟩
  · rintro ⟨k, hk2, hk3⟩; exact ⟨k, by omega, by omega, hk3⟩

theorem impl.call_preserves (F : Formats) (C : Codec) (self : impl) (sys : System) (c : Call) :
    (impl.call F C self sys c).1 = self ∧ (impl.call F C self sys c).2.closes = sys.closes := by
  cases c <;> exact ⟨rfl, rfl⟩

theorem impl.calls_preserves (F : Formats) (C : Codec) :
    ∀ (cs : List Call) (self : impl) (sys : System),
      (impl.calls F C self sys cs).1 = self ∧ (impl.calls F C self sys cs).2.closes = sys.closes := by
  intro cs
  induction cs with
  | nil => intro self sys; exact ⟨rfl, rfl⟩
  | cons c cs ih =>
    intro self sys
    unfold impl.calls
    obtain ⟨h1, h2⟩ := ih (impl.call F C self sys c).1 (impl.call F C self sys c).2
    obtain ⟨h3, h4⟩ := impl.call_preserves F C self sys c
    exact ⟨h1.trans h3, h2.trans h4⟩

/-- C15. Release exactly once: over the lifetime of a lock (construction, any sequence of
calls of `locked`, `clear`, `is_convertible`, `set_data`, `get_data`, `get_data_length`,
`set_image`, `get_image`, `get_image_spec`, destruction), `CloseClipboard` is called exactly
once when the acquisition succeeded (one of the first 5 answers of `OpenClipboard` is a
success) and never when it failed; no method call closes the clipboard or changes the
locked state, whatever the sequence of calls made before it. -/
theorem lifetime_closes_once (F : Formats) (C : Codec) (handler : Bool) (answers : Nat → Bool)
    (cs : List Call) (sys : System) :
    ((∃ k, k < 5 ∧ answers k = true) →
      (lifetime F C handler answers cs sys).closes = sys.closes + 1) ∧
    ((∀ k, k < 5 → answers k = false) →
      (lifetime F C handler answers cs sys).closes = sys.closes) ∧
    (∀ (self : impl) (s : System) (c : Call),
      (impl.call F C self s c).1 = self ∧ (impl.call F C self s c).2.closes = s.closes) ∧
    (impl.calls F C (impl.ctor handler answers).self sys cs).1 =
      (impl.ctor handler answers).self ∧
    (impl.calls F C (impl.ctor handler answers).self sys cs).2.closes = sys.closes := by
  obtain ⟨h1, h2⟩ := impl.calls_preserves F C cs (impl.ctor handler answers).self sys
  refine ⟨fun hex => ?_, fun hall => ?_, fun self s c => impl.call_preserves F C self s c,
    h1, h2⟩
  · have hl := (impl.ctor_locked_iff handler answers).2 hex
    unfold lifetime impl.dtor
    rw [h1, hl, if_pos rfl]
    show (impl.calls F C (impl.ctor handler answers).self sys cs).2.closes + 1 = _
    rw [h2]
  · have hl : (impl.ctor handler answers).self.m_locked = false := by
      cases hm : (impl.ctor handler answers).self.m_locked with
      | false => rfl
      | true =>
        obtain ⟨k, hk1, hk2⟩ := (impl.ctor_locked_iff handler answers).1 hm
        rw [hall k hk1] at hk2; cases hk2
    unfold lifetime impl.dtor
    rw [h1, hl]
    exact h2

/-- C16. Bounds-checked blob fetch: for a custom format `f` present on the clipboard (format
available, handle non-null and lockable) whose stored length header is `r`,
`get_data(f, buf, len)` returns true iff `r ≤ len`; when `r ≤ len` it copies exactly the
`r` bytes that follow the header into `buf[0..r)` and leaves the rest of `buf` unchanged;
when `r > len` it returns false and leaves all of `buf` unchanged. -/
theorem get_data_custom_bounds (F : Formats) (C : Codec) (cb : Clipboard) (f : Nat)
    (o : GlobalObj) (buf : Mem) (len : Nat)
    (hf : f ≠ F.text_format) (hi : f ≠ F.image_format)
    (hav : cb.avail f = true) (hd : cb.data f = some o) (hl : o.lockable = true) :
    ((get_data F C cb f (some buf) len).1 = true ↔ rd64 o.mem 0 ≤ len) ∧
    (rd64 o.mem 0 ≤ len →
      ∃ out, get_data F C cb f (some buf) len = (true, some out) ∧
        (∀ i, i < rd64 o.mem 0 → out i = byteAt o.mem (sizeofSizeT + i)) ∧
        (∀ i, rd64 o.mem 0 ≤ i → out i = buf i)) ∧
    (len < rd64 o.mem 0 → get_data F C cb f (some buf) len = (false, some buf)) := by
  have hg : get_data F C cb f (some buf) len =
      if rd64 o.mem 0 ≤ len then (true, some (memcpy buf 0 o.mem sizeofSizeT (rd64 o.mem 0)))
      else (false, some buf) := by
    simp [get_data, is_convertible, hf, hi, IsClipboardFormatAvailable, GetClipboardData,
      hav, hd, GlobalLock, hl]
  rw [hg]
  by_cases hr : rd64 o.mem 0 ≤ len
  · rw [if_pos hr]
    refine ⟨⟨fun _ => hr, fun _ => rfl⟩, fun _ => ⟨_, rfl, fun i hi' => ?_, fun i hi' => ?_⟩,
      fun h => by omega⟩
    · unfold memcpy
      rw [if_pos ⟨by omega, by omega⟩, Nat.sub_zero]
    · unfold memcpy
      rw [if_neg (by omega)]
  · rw [if_neg hr]
    exact ⟨⟨fun h => by simp at h, fun h => absurd h hr⟩, fun h => absurd h hr, fun _ => rfl⟩

theorem get_data_custom_bounds_witness :
    ((get_data sampleFormats asciiCodec (clipboardWith 0xC000 objBlob3) 0xC000
        (some (memOfList [1, 1, 1, 1, 1])) 5).1 = true ↔ rd64 objBlob3.mem 0 ≤ 5) ∧
    rd64 objBlob3.mem 0 = 3 ∧
    (get_data sampleFormats asciiCodec (clipboardWith 0xC000 objBlob3) 0xC000
      (some (memOfList [1, 1, 1, 1, 1])) 5).2.map (fun m => memTake m 5)
      = some [7, 8, 9, 1, 1] ∧
    (get_data sampleFormats asciiCodec (clipboardWith 0xC000 objBlob3) 0xC000
      (some (memOfList [1, 1, 1, 1, 1])) 2).1 = false :=
  ⟨(get_data_custom_bounds sampleFormats asciiCodec (clipboardWith 0xC000 objBlob3) 0xC000
      objBlob3 (memOfList [1, 1, 1, 1, 1]) 5 (by decide) (by decide) (by decide) (by rfl)
      (by rfl)).1,
    by decide, by decide, by decide⟩

/-- C20. Atomicity of `get_image` on failure: for every clipboard and every initial value of
`output_img`, when `get_image` returns false (no bitmap available, null bitmap handle or
unsupported compression) `output_img` is unchanged; when it returns true,
`get_image_spec` succeeds on the same clipboard and the spec of the new `output_img` is
the spec it reports; when it throws, `output_img` is unchanged as well. -/
theorem get_image_atomic (handler : Bool) (fresh : Mem) (cb : Clipboard) (out0 : image) :
    ((get_image handler fresh cb out0).1 = Outcome.returns false →
      (get_image handler fresh cb out0).2.1 = out0) ∧
    ((get_image handler fresh cb out0).1 = Outcome.returns true →
      (get_image_spec cb {}).1 = true ∧
      (get_image handler fresh cb out0).2.1.spec = (get_image_spec cb {}).2) ∧
    (∀ e, (get_image handler fresh cb out0).1 = Outcome.throws e →
      (get_image handler fresh cb out0).2.1 = out0) := by
  by_cases hs : (get_image_spec cb {}).1 = true
  · obtain ⟨hav, o, hd⟩ := (get_image_spec_true_iff cb {}).1 hs
    rw [get_image_present handler fresh cb out0 o hav hd]
    by_cases hc : (bmiHeader o.mem).biCompression ≠ BI_RGB ∧
        (bmiHeader o.mem).biCompression ≠ BI_BITFIELDS
    · rw [if_pos hc]
      exact ⟨fun _ => rfl, fun h => by simp at h, fun _ _ => rfl⟩
    · rw [if_neg hc]
      cases get_image.decode o.mem (get_image_spec cb {}).2 fresh with
      | returns data => exact ⟨fun h => by simp at h, fun _ => ⟨hs, rfl⟩, fun e h => by simp at h⟩
      | throws e => exact ⟨fun _ => rfl, fun h => by simp at h, fun _ _ => rfl⟩
  · have hf : get_image handler fresh cb out0 = (Outcome.returns false, out0, []) := by
      unfold get_image
      simp [hs]
    rw [hf]
    exact ⟨fun _ => rfl, fun h => by simp at h, fun _ _ => rfl⟩

/-- C17 (failing input). For an uncompressed 4-bit indexed bitmap 2x1 whose first pixel has
index 0 (palette entry blue 10, green 20, red 30), `get_image` returns true with
`bits_per_pixel = 24`, and the returned pixel data is the untouched content of the fresh
buffer: all 99 when the buffer held 99 and all 0 when it held 0, whatever the source pixels
(`0x01` or `0x10`). The `switch` has no case for the bit depths 1 and 4. -/
theorem get_image_low_depth_undecoded :
    (bmiHeader (obj4bit 0x01).mem).biBitCount = 4 ∧
    (bmiHeader (obj4bit 0x01).mem).biCompression = BI_RGB ∧
    rgbBlue (obj4bit 0x01).mem 0 = 10 ∧
    (get_image true (fun _ => 99) (clipboardWith CF_DIB (obj4bit 0x01)) emptyImage).1 = Outcome.returns true ∧
    (get_image true (fun _ => 99) (clipboardWith CF_DIB (obj4bit 0x01))
      emptyImage).2.1.spec.bits_per_pixel = 24 ∧
    (get_image true (fun _ => 99) (clipboardWith CF_DIB (obj4bit 0x01))
      emptyImage).2.1.spec.bytes_per_row = 8 ∧
    memTake (get_image true (fun _ => 99) (clipboardWith CF_DIB (obj4bit 0x01))
      emptyImage).2.1.data 8 = [99, 99, 99, 99, 99, 99, 99, 99] ∧
    memTake (get_image true (fun _ => 99) (clipboardWith CF_DIB (obj4bit 0x10))
      emptyImage).2.1.data 8 = [99, 99, 99, 99, 99, 99, 99, 99] ∧
    memTake (get_image true (fun _ => 0) (clipboardWith CF_DIB (obj4bit 0x01))
      emptyImage).2.1.data 8 = [0, 0, 0, 0, 0, 0, 0, 0] := by
  refine ⟨by decide, by decide, by decide, by decide, by decide, by decide, by decide,
    by decide, by decide⟩

/-- C18 (failing input). For an uncompressed (`BI_RGB`) 16-bit bitmap 2x1 whose pixel data
1, 2, 3, 4 starts right after the 40-byte header, `get_image` returns the bytes 9, 9, 9, 9
found 12 bytes further, and `get_image_spec` reports as red mask the first four bytes of the
pixel data (`0x04030201`). For the uncompressed 32-bit bitmap `obj32rgb` the pixel is read
right after the header and the red mask is the fixed `0xff0000`. -/
theorem get_image_16_always_skips :
    (bmiHeader obj16rgb.mem).biBitCount = 16 ∧
    (bmiHeader obj16rgb.mem).biCompression = BI_RGB ∧
    (bmiHeader obj16rgb.mem).biSize = 40 ∧
    memTake (fun i => obj16rgb.mem (40 + i)) 4 = [1, 2, 3, 4] ∧
    (get_image true (fun _ => 0) (clipboardWith CF_DIB obj16rgb) emptyImage).1 = Outcome.returns true ∧
    (get_image_spec (clipboardWith CF_DIB obj16rgb) {}).2.bytes_per_row = 4 ∧
    memTake (get_image true (fun _ => 0) (clipboardWith CF_DIB obj16rgb) emptyImage).2.1.data 4
      = [9, 9, 9, 9] ∧
    (get_image_spec (clipboardWith CF_DIB obj16rgb) {}).2.red_mask = 0x04030201 ∧
    memTake (get_image true (fun _ => 0) (clipboardWith CF_DIB obj32rgb) emptyImage).2.1.data 4
      = [1, 2, 3, 4] ∧
    (get_image_spec (clipboardWith CF_DIB obj32rgb) {}).2.red_mask = 0xff0000 := by
  refine ⟨by decide, by decide, by decide, by decide, by decide, by decide, by decide,
    by decide, by decide, by decide⟩

/-- C19 (failing input). For the 8-bit indexed bitmap `objIndexed4x2` of width 4 and height
2 the image buffer has `2 * 12 = 24` bytes, and after `get_image` the byte at offset 24,
the first one past the buffer, has changed from 99 to 0: the 32-bit store of the last pixel
of the last row covers the offsets 21 to 24. -/
theorem get_image_indexed_out_of_bounds :
    (bmiHeader objIndexed4x2.mem).biBitCount = 8 ∧
    (get_image_spec (clipboardWith CF_DIB objIndexed4x2) {}).2.width = 4 ∧
    (get_image_spec (clipboardWith CF_DIB objIndexed4x2) {}).2.height *
      (get_image_spec (clipboardWith CF_DIB objIndexed4x2) {}).2.bytes_per_row = 24 ∧
    (get_image true (fun _ => 99) (clipboardWith CF_DIB objIndexed4x2) emptyImage).1 = Outcome.returns true ∧
    (get_image true (fun _ => 99) (clipboardWith CF_DIB objIndexed4x2) emptyImage).2.1.data 24
      = 0 ∧
    (get_image true (fun _ => 99) (clipboardWith CF_DIB objIndexed4x2) emptyImage).2.1.data 25
      = 99 := by
  refine ⟨by decide, by decide, by decide, by decide, by decide, by decide⟩

end Clip
